import Mathlib

/-!
Verification development for the private-data storage engine
(`pvtdatastorage` store and the kvledger reconciliation engine).

The underlying ordered key-value store is modelled with one typed
association list per key family; the byte-level key codec is an external
collaborator whose contract (spec section 4.1) is a bijective, family
partitioned encoding, so typed keys are a faithful view of the key space.
Functions of the store that live in the examined source are translated
directly; collaborator functions that the source only calls (BTL policy,
entry builder, key derivation) are modelled from the specification and
are marked as such in their doc comments.
-/

namespace PvtStore

/-! ### Key and value types (mirroring the source's key structs) -/

/-- Identity (namespace, collection, block number), as in the source's
`nsCollBlk` struct. -/
structure NsCollBlk where
  ns : String
  coll : String
  blkNum : Nat
deriving DecidableEq, Repr

/-- Key of a data entry: `nsCollBlk` plus the transaction number, as in the
source's `dataKey` struct. -/
structure DataKey where
  nsCollBlk : NsCollBlk
  txNum : Nat
deriving DecidableEq, Repr

/-- Key of an expiry entry `(expiringBlk, committingBlk)`, as in the source's
`expiryKey` struct. -/
structure ExpiryKey where
  expiringBlk : Nat
  committingBlk : Nat
deriving DecidableEq, Repr

/-- Key of a missing-data entry: `nsCollBlk` plus the eligibility flag, as in
the source's `missingDataKey` struct. -/
structure MissingDataKey where
  nsCollBlk : NsCollBlk
  isEligible : Bool
deriving DecidableEq, Repr

/-- A collection-scoped private read/write set (`rwset.CollectionPvtReadWriteSet`):
a collection name and the raw serialized rwset bytes (bytes as `List Nat`). -/
structure CollectionPvtReadWriteSet where
  collectionName : String
  rwset : List Nat
deriving DecidableEq, Repr

/-- A namespace's private read/write sets (`rwset.NsPvtReadWriteSet`). -/
structure NsPvtReadWriteSet where
  ns : String
  collectionPvtRwset : List CollectionPvtReadWriteSet
deriving DecidableEq, Repr

/-- A transaction's private read/write sets (`rwset.TxPvtReadWriteSet`). -/
structure TxPvtReadWriteSet where
  nsPvtRwset : List NsPvtReadWriteSet
deriving DecidableEq, Repr

/-- A transaction's private data with its sequence number in the block
(`ledger.TxPvtData`). -/
structure TxPvtData where
  seqInBlock : Nat
  writeSet : TxPvtReadWriteSet
deriving DecidableEq, Repr

/-- Value of an expiry entry. Modelled from the spec: for the committing
block, the set of `(ns, coll, txNum)` for which data is present and the set
of `(ns, coll)` for which data is missing (spec section 3, Expiry Entry;
the protobuf `ExpiryData` message is not part of the examined source). -/
structure ExpiryData where
  presentData : List (String × String × Nat)
  missingData : List (String × String)
deriving DecidableEq, Repr

/-- A missing-data bitmap, modelled as the list of set bit indices
(index = txNum), as the spec's design note prescribes for the
bitmap-as-opaque-blob collaborator. -/
abbrev Bitmap := List Nat

/-- Set the bit `i` in a bitmap (idempotent). -/
def bmSet (b : Bitmap) (i : Nat) : Bitmap :=
  if i ∈ b then b else b ++ [i]

/-- Clear the bit `i` in a bitmap (the bitset collaborator's `Clear`). -/
def bmClear (b : Bitmap) (i : Nat) : Bitmap :=
  b.filter (fun j => decide (j ≠ i))

/-- True when no bit is set (the bitset collaborator's `None`). -/
def bmNone (b : Bitmap) : Bool :=
  b.isEmpty

/-! ### Association-list maps (the typed view of the ordered KV store) -/

/-- Lookup in an association list (the KV store's `Get`: `none` models a
missing key). -/
def alistLookup {κ α : Type} [DecidableEq κ] : List (κ × α) → κ → Option α
  | [], _ => none
  | (k', v) :: rest, k => if k' = k then some v else alistLookup rest k

/-- Insert or replace a binding (the KV store's `Put` inside a batch). -/
def alistPut {κ α : Type} [DecidableEq κ] (l : List (κ × α)) (k : κ) (v : α) :
    List (κ × α) :=
  (k, v) :: l.filter (fun p => decide (p.1 ≠ k))

/-- Delete a binding (the KV store's `Delete` inside a batch). -/
def alistRemove {κ α : Type} [DecidableEq κ] (l : List (κ × α)) (k : κ) :
    List (κ × α) :=
  l.filter (fun p => decide (p.1 ≠ k))

/-! ### BTL policy (external collaborator, modelled from the spec) -/

/-- A BTL policy assigns each (namespace, collection) its block-to-live;
the value 0 is the "never expires" configuration (spec glossary and
section 4.2 edge case). -/
abbrev BTLPolicy := String → String → Nat

/-- Modelled from the spec: the BTL policy collaborator's
`GetExpiringBlock(ns, coll, committingBlk)` (spec section 6). Data committed
at height `h` with BTL `k` expires at height `h + k + 1` (spec section 8,
expiry correctness); the never-expires sentinel of a BTL = 0 collection is
modelled as `none`, which suppresses expiry-entry creation. -/
def getExpiringBlock (pol : BTLPolicy) (ns coll : String) (committingBlk : Nat) :
    Option Nat :=
  if pol ns coll = 0 then none else some (committingBlk + pol ns coll + 1)

/-- Modelled from the spec: the `isExpired` helper used by the read paths
(the helper file is not part of the examined source). An entry is expired
when its expiring block height has been reached by the last committed
block; a never-expiring entry is never expired. -/
def isExpired (key : NsCollBlk) (pol : BTLPolicy) (lastCommittedBlock : Nat) :
    Bool :=
  match getExpiringBlock pol key.ns key.coll key.blkNum with
  | none => false
  | some expiringBlk => decide (expiringBlk ≤ lastCommittedBlock)

/-! ### ExpiryData operations (modelled from the spec) -/

/-- Modelled from the spec: record in an expiry entry that data for
`(ns, coll, txNum)` is present (the protobuf helper `addPresentData`). -/
def ExpiryData.addPresentData (e : ExpiryData) (ns coll : String) (txNum : Nat) :
    ExpiryData :=
  { e with presentData := e.presentData ++ [(ns, coll, txNum)] }

/-- Modelled from the spec: record in an expiry entry that data for
`(ns, coll)` is missing (the protobuf helper `addMissingData`). -/
def ExpiryData.addMissingData (e : ExpiryData) (ns coll : String) : ExpiryData :=
  { e with missingData := e.missingData ++ [(ns, coll)] }

/-- Does the expiry entry reference collection `(ns, coll)` on its present or
missing side? -/
def ExpiryData.mentions (e : ExpiryData) (ns coll : String) : Bool :=
  e.presentData.any (fun q => decide (q.1 = ns) && decide (q.2.1 = coll)) ||
    e.missingData.any (fun q => decide (q.1 = ns) && decide (q.2 = coll))

/-! ### The store state -/

/-- The typed view of the store's LevelDB contents, one component per key
family plus the last-committed-block bookkeeping key. -/
structure StoreDB where
  dataEntries : List (DataKey × CollectionPvtReadWriteSet)
  expiryEntries : List (ExpiryKey × ExpiryData)
  missingDataEntries : List (MissingDataKey × Bitmap)
  lastCommittedBlkVal : Option Nat
deriving DecidableEq, Repr

/-- The store's in-memory state together with its database, mirroring the
source's `Store` struct fields used by the verified operations. -/
structure Store where
  btlPolicy : BTLPolicy
  isEmpty : Bool
  lastCommittedBlock : Nat
  isLastUpdatedOldBlocksSet : Bool
  db : StoreDB

/-- The source's `ErrIllegalCall`, `ErrIllegalArgs` and `ErrOutOfRange`
error types, each carrying its message. -/
inductive StoreErr where
  | illegalCall (msg : String)
  | illegalArgs (msg : String)
  | outOfRange (msg : String)
deriving DecidableEq, Repr

/-- The source's `nextBlockNum`: 0 when the store is empty, otherwise the
last committed block plus one. -/
def Store.nextBlockNum (s : Store) : Nat :=
  if s.isEmpty then 0 else s.lastCommittedBlock + 1

/-! ### Entry builder (spec section 4.2; the helper file is not part of the
examined source, so these are modelled from the spec) -/

/-- One declared missing private-data item of a transaction
(`ledger.MissingPvtData`). -/
structure MissingPvtData where
  ns : String
  coll : String
  isEligible : Bool
deriving DecidableEq, Repr

/-- `ledger.TxMissingPvtDataMap`: per transaction number, the declared
missing private-data items. -/
abbrev TxMissingPvtDataMap := List (Nat × List MissingPvtData)

/-- The triple of entry collections produced by the entry builder, as in the
source's `storeEntries` struct. -/
structure StoreEntries where
  dataEntries : List (DataKey × CollectionPvtReadWriteSet)
  expiryEntries : List (ExpiryKey × ExpiryData)
  missingDataEntries : List (MissingDataKey × Bitmap)

/-- Modelled from the spec: `prepareDataEntries` of the entry builder — one
data entry per (ns, coll) write-set of each transaction, keyed by
`(ns, coll, blockNum, txNum)` (spec sections 3 and 4.2). -/
def prepareDataEntries (blockNum : Nat) (pvtData : List TxPvtData) :
    List (DataKey × CollectionPvtReadWriteSet) :=
  pvtData.flatMap (fun tx =>
    tx.writeSet.nsPvtRwset.flatMap (fun nsRw =>
      nsRw.collectionPvtRwset.map (fun collRw =>
        (⟨⟨nsRw.ns, collRw.collectionName, blockNum⟩, tx.seqInBlock⟩, collRw))))

/-- Modelled from the spec: `prepareMissingDataEntries` of the entry
builder — one missing-data entry per distinct `(ns, coll, isEligible)`, its
bitmap holding one set bit per affected transaction number (spec section 4.2). -/
def prepareMissingDataEntries (committingBlk : Nat)
    (missingPvtData : TxMissingPvtDataMap) : List (MissingDataKey × Bitmap) :=
  missingPvtData.foldl
    (fun acc txMissing =>
      txMissing.2.foldl
        (fun acc m =>
          let key : MissingDataKey := ⟨⟨m.ns, m.coll, committingBlk⟩, m.isEligible⟩
          match alistLookup acc key with
          | some bm => alistPut acc key (bmSet bm txMissing.1)
          | none => alistPut acc key (bmSet [] txMissing.1))
        acc)
    []

/-- Modelled from the spec: `prepareExpiryEntries` of the entry builder —
one expiry entry per distinct `(expiringBlk, blockNum)` pair encountered,
with present/missing sets merged across all transactions of the block; no
expiry entry is created for a never-expiring collection (spec section 4.2
and its BTL = 0 edge case). -/
def prepareExpiryEntries (_committingBlk : Nat)
    (dataEntries : List (DataKey × CollectionPvtReadWriteSet))
    (missingDataEntries : List (MissingDataKey × Bitmap)) (pol : BTLPolicy) :
    List (ExpiryKey × ExpiryData) :=
  missingDataEntries.foldl
    (fun acc me =>
      match getExpiringBlock pol me.1.nsCollBlk.ns me.1.nsCollBlk.coll
          me.1.nsCollBlk.blkNum with
      | none => acc
      | some expiringBlk =>
        alistPut acc ⟨expiringBlk, me.1.nsCollBlk.blkNum⟩
          (((alistLookup acc ⟨expiringBlk, me.1.nsCollBlk.blkNum⟩).getD
            ⟨[], []⟩).addMissingData me.1.nsCollBlk.ns me.1.nsCollBlk.coll))
    (dataEntries.foldl
      (fun acc de =>
        match getExpiringBlock pol de.1.nsCollBlk.ns de.1.nsCollBlk.coll
            de.1.nsCollBlk.blkNum with
        | none => acc
        | some expiringBlk =>
          alistPut acc ⟨expiringBlk, de.1.nsCollBlk.blkNum⟩
            (((alistLookup acc ⟨expiringBlk, de.1.nsCollBlk.blkNum⟩).getD
              ⟨[], []⟩).addPresentData de.1.nsCollBlk.ns de.1.nsCollBlk.coll
              de.1.txNum))
      [])

/-- Modelled from the spec: `prepareStoreEntries` of the entry builder
(spec section 4.2), combining the three entry collections for one block. -/
def prepareStoreEntries (blockNum : Nat) (pvtData : List TxPvtData)
    (pol : BTLPolicy) (missingPvtData : TxMissingPvtDataMap) : StoreEntries :=
  let dataEntries := prepareDataEntries blockNum pvtData
  let missingDataEntries := prepareMissingDataEntries blockNum missingPvtData
  ⟨dataEntries, prepareExpiryEntries blockNum dataEntries missingDataEntries pol,
    missingDataEntries⟩

/-! ### Batch application helpers -/

/-- Apply the data-entry `Put`s of a batch to the database. -/
def putDataEntries (db : StoreDB)
    (l : List (DataKey × CollectionPvtReadWriteSet)) : StoreDB :=
  l.foldl (fun db e => { db with dataEntries := alistPut db.dataEntries e.1 e.2 }) db

/-- Apply the expiry-entry `Put`s of a batch to the database. -/
def putExpiryEntries (db : StoreDB) (l : List (ExpiryKey × ExpiryData)) : StoreDB :=
  l.foldl (fun db e => { db with expiryEntries := alistPut db.expiryEntries e.1 e.2 }) db

/-- Apply the missing-data-entry `Put`s of a batch to the database. -/
def putMissingDataEntries (db : StoreDB)
    (l : List (MissingDataKey × Bitmap)) : StoreDB :=
  l.foldl
    (fun db e => { db with missingDataEntries := alistPut db.missingDataEntries e.1 e.2 })
    db

/-! ### Commit (the source's `Store.Commit`) -/

/-- The source's `Commit(blockNum, pvtData, missingPvtData)`: reject any
block number other than `nextBlockNum` with an `ErrIllegalArgs` naming the
expected and received numbers; otherwise build the store entries, write
them and the advanced height key in one batch, and advance the in-memory
height state. The asynchronous purge scheduling (`performPurgeIfScheduled`,
a fire-and-forget goroutine) is modelled separately by `purgeExpiredData`.
The result pairs an optional error with the (possibly updated) store. -/
def Store.Commit (s : Store) (blockNum : Nat) (pvtData : List TxPvtData)
    (missingPvtData : TxMissingPvtDataMap) : Option StoreErr × Store :=
  let expectedBlockNum := s.nextBlockNum
  if expectedBlockNum ≠ blockNum then
    (some (.illegalArgs ("Expected block number=" ++ toString expectedBlockNum ++
      ", received block number=" ++ toString blockNum)), s)
  else
    let entries := prepareStoreEntries blockNum pvtData s.btlPolicy missingPvtData
    let db1 := putDataEntries s.db entries.dataEntries
    let db2 := putExpiryEntries db1 entries.expiryEntries
    let db3 := putMissingDataEntries db2 entries.missingDataEntries
    let committingBlockNum := s.nextBlockNum
    let db4 := { db3 with lastCommittedBlkVal := some committingBlockNum }
    (none, { s with db := db4, isEmpty := false, lastCommittedBlock := committingBlockNum })

/-! ### GetPvtDataByBlockNum (the source's read path) -/

/-- `ledger.PvtNsCollFilter`, modelled from the spec: an optional set of
(ns, coll) pairs; `none` (the nil filter) filters nothing. -/
abbrev PvtNsCollFilter := Option (List (String × String))

/-- The `passesFilter` helper: a nil filter passes everything, otherwise the
data key's (ns, coll) must be in the filter. -/
def passesFilter (dk : DataKey) (filter : PvtNsCollFilter) : Bool :=
  match filter with
  | none => true
  | some l => decide ((dk.nsCollBlk.ns, dk.nsCollBlk.coll) ∈ l)

/-- The source's `txPvtdataAssembler`: accumulates the (ns, collection
rwset) pairs of one transaction during the block scan. -/
structure TxPvtdataAssembler where
  blockNum : Nat
  txNum : Nat
  entries : List (String × CollectionPvtReadWriteSet)
deriving DecidableEq, Repr

/-- Append one collection rwset under its namespace (the assembler's `add`). -/
def TxPvtdataAssembler.add (a : TxPvtdataAssembler) (ns : String)
    (v : CollectionPvtReadWriteSet) : TxPvtdataAssembler :=
  { a with entries := a.entries ++ [(ns, v)] }

/-- Add one (namespace, collection rwset) pair to a per-namespace grouping,
appending to an existing namespace entry or creating a new one at the end. -/
def addToNsList (e : String × CollectionPvtReadWriteSet) :
    List NsPvtReadWriteSet → List NsPvtReadWriteSet
  | [] => [⟨e.1, [e.2]⟩]
  | n :: rest =>
    if n.ns = e.1 then ⟨n.ns, n.collectionPvtRwset ++ [e.2]⟩ :: rest
    else n :: addToNsList e rest

/-- Group an assembled entry list into per-namespace rwsets, preserving
first-appearance order of namespaces. -/
def groupByNs (l : List (String × CollectionPvtReadWriteSet)) :
    List NsPvtReadWriteSet :=
  l.foldl (fun acc e => addToNsList e acc) []

/-- Produce the transaction's private data from an assembler (the
assembler's `getTxPvtdata`). -/
def TxPvtdataAssembler.getTxPvtdata (a : TxPvtdataAssembler) : TxPvtData :=
  ⟨a.txNum, ⟨groupByNs a.entries⟩⟩

/-- The scan loop of `GetPvtDataByBlockNum`: over the block's data entries
in iterator order, skip entries that are expired as of the last committed
block or excluded by the filter, and group runs of equal `txNum` into one
result record. The `Option` assembler models the loop's
`firstItr`/`currentTxNum` bookkeeping. -/
def pvtScanLoop (pol : BTLPolicy) (last : Nat) (filter : PvtNsCollFilter)
    (blockNum : Nat) : List (DataKey × CollectionPvtReadWriteSet) →
    Option TxPvtdataAssembler → List TxPvtData → List TxPvtData
  | [], none, out => out
  | [], some a, out => out ++ [a.getTxPvtdata]
  | (dk, v) :: rest, cur, out =>
    if isExpired dk.nsCollBlk pol last || !passesFilter dk filter then
      pvtScanLoop pol last filter blockNum rest cur out
    else
      match cur with
      | none =>
        pvtScanLoop pol last filter blockNum rest
          (some (TxPvtdataAssembler.add ⟨blockNum, dk.txNum, []⟩ dk.nsCollBlk.ns v)) out
      | some a =>
        if dk.txNum ≠ a.txNum then
          pvtScanLoop pol last filter blockNum rest
            (some (TxPvtdataAssembler.add ⟨blockNum, dk.txNum, []⟩ dk.nsCollBlk.ns v))
            (out ++ [a.getTxPvtdata])
        else
          pvtScanLoop pol last filter blockNum rest (some (a.add dk.nsCollBlk.ns v)) out

/-- The data entries the block-scoped range scan yields, in the stored
iterator order. -/
def dataEntriesOfBlock (db : StoreDB) (blockNum : Nat) :
    List (DataKey × CollectionPvtReadWriteSet) :=
  db.dataEntries.filter (fun p => decide (p.1.nsCollBlk.blkNum = blockNum))

/-- The source's `GetPvtDataByBlockNum(blockNum, filter)`: out-of-range on
an empty store or a block number above the last committed block, otherwise
the assembled, expiry- and filter-checked private data of the block. -/
def Store.GetPvtDataByBlockNum (s : Store) (blockNum : Nat)
    (filter : PvtNsCollFilter) : Except StoreErr (List TxPvtData) :=
  if s.isEmpty then
    .error (.outOfRange "The store is empty")
  else if blockNum > s.lastCommittedBlock then
    .error (.outOfRange ("Last committed block=" ++ toString s.lastCommittedBlock ++
      ", block requested=" ++ toString blockNum))
  else
    .ok (pvtScanLoop s.btlPolicy s.lastCommittedBlock filter blockNum
      (dataEntriesOfBlock s.db blockNum) none [])

/-! ### GetMissingPvtDataInfoForMostRecentBlocks -/

/-- `ledger.MissingPvtDataInfo`, modelled from the spec: per block number,
the (txNum, ns, coll) items missing eligible private data. -/
abbrev MissingPvtDataInfo := List (Nat × List (Nat × String × String))

/-- The `MissingPvtDataInfo.Add` collaborator: record one missing item under
its block number. -/
def MissingPvtDataInfo.add (info : MissingPvtDataInfo) (blk tx : Nat)
    (ns coll : String) : MissingPvtDataInfo :=
  match alistLookup info blk with
  | some l => alistPut info blk (l ++ [(tx, ns, coll)])
  | none => alistPut info blk [(tx, ns, coll)]

/-- The eligible missing-data entries of one block, in stored order. -/
def eligibleMissingEntriesForBlk (db : StoreDB) (blk : Nat) :
    List (MissingDataKey × Bitmap) :=
  db.missingDataEntries.filter
    (fun p => p.1.isEligible && decide (p.1.nsCollBlk.blkNum = blk))

/-- The eligible missing-data range scan ending at the last committed
block, walking backward over block numbers (the reverse-order key encoding
of the codec yields exactly this iteration order). -/
def eligibleMissingDataScan (db : StoreDB) (last : Nat) :
    List (MissingDataKey × Bitmap) :=
  ((List.range (last + 1)).reverse).flatMap (eligibleMissingEntriesForBlk db)

/-- The loop state of `GetMissingPvtDataInfoForMostRecentBlocks`; `stopped`
models the loop's `break`. -/
structure MissingScanState where
  missingPvtDataInfo : MissingPvtDataInfo
  numberOfBlockProcessed : Int
  lastProcessedBlock : Nat
  isMaxBlockLimitReached : Bool
  stopped : Bool
deriving DecidableEq, Repr

/-- The block-counting part of one scan iteration: on the first entry of a
block not yet present in the accumulated info, increment the processed-block
counter, and when it reaches `maxBlock` raise the limit flag and remember
the block. -/
def missingScanStepCount (maxBlock : Int) (st : MissingScanState)
    (e : MissingDataKey × Bitmap) : MissingScanState :=
  if (alistLookup st.missingPvtDataInfo e.1.nsCollBlk.blkNum).isNone then
    if st.numberOfBlockProcessed + 1 = maxBlock then
      { st with
        numberOfBlockProcessed := st.numberOfBlockProcessed + 1
        isMaxBlockLimitReached := true
        lastProcessedBlock := e.1.nsCollBlk.blkNum }
    else { st with numberOfBlockProcessed := st.numberOfBlockProcessed + 1 }
  else st

/-- One iteration of the missing-data scan loop, as in the source: break
when the max-block limit was reached and a new block starts; skip expired
entries; count a block the first time it is seen in the accumulated info;
then record every set bit of the entry's bitmap. -/
def missingScanStep (pol : BTLPolicy) (last : Nat) (maxBlock : Int)
    (st : MissingScanState) (e : MissingDataKey × Bitmap) : MissingScanState :=
  if st.stopped then st
  else if st.isMaxBlockLimitReached &&
      decide (e.1.nsCollBlk.blkNum ≠ st.lastProcessedBlock) then
    { st with stopped := true }
  else if isExpired e.1.nsCollBlk pol last then st
  else
    { missingScanStepCount maxBlock st e with
      missingPvtDataInfo := e.2.foldl
        (fun info t => info.add e.1.nsCollBlk.blkNum t e.1.nsCollBlk.ns
          e.1.nsCollBlk.coll)
        (missingScanStepCount maxBlock st e).missingPvtDataInfo }

/-- The source's `GetMissingPvtDataInfoForMostRecentBlocks(maxBlock)`:
empty for `maxBlock < 1`, otherwise the backward scan of the eligible
missing-data range, accumulating per-block info until `maxBlock` distinct
blocks have been seen, never splitting a block across the boundary. -/
def Store.GetMissingPvtDataInfoForMostRecentBlocks (s : Store) (maxBlock : Int) :
    Except StoreErr MissingPvtDataInfo :=
  if maxBlock < 1 then .ok []
  else
    let last := s.lastCommittedBlock
    .ok ((eligibleMissingDataScan s.db last).foldl
      (missingScanStep s.btlPolicy last maxBlock)
      ⟨[], 0, 0, false, false⟩).missingPvtDataInfo

/-! ### CommitPvtDataOfOldBlocks (the source's reconciled-data merge) -/

/-- The source's `entriesForPvtDataOfOldBlocks`: the data entries together
with the retrieved-and-updated expiry entries and missing-data bitmaps. -/
structure EntriesForPvtDataOfOldBlocks where
  dataEntries : List (DataKey × CollectionPvtReadWriteSet)
  expiryEntries : List (ExpiryKey × ExpiryData)
  missingDataEntries : List (NsCollBlk × Bitmap)
deriving DecidableEq, Repr

/-- The source's `constructDataEntriesFromBlocksPvtData`: data entries for
all supplied blocks' private data. -/
def constructDataEntriesFromBlocksPvtData (blocksPvtData : List (Nat × List TxPvtData)) :
    List (DataKey × CollectionPvtReadWriteSet) :=
  blocksPvtData.flatMap (fun b => prepareDataEntries b.1 b.2)

/-- The source's `getExpiryDataFromUpdateEntriesOrStore`: consult the
accumulated update entries first, then the store. -/
def getExpiryDataFromUpdateEntriesOrStore (s : Store)
    (u : EntriesForPvtDataOfOldBlocks) (ek : ExpiryKey) : Option ExpiryData :=
  match alistLookup u.expiryEntries ek with
  | some ed => some ed
  | none => alistLookup s.db.expiryEntries ek

/-- The source's `getMissingDataFromUpdateEntriesOrStore`: consult the
accumulated update entries first, then the store's eligible missing-data
entry. -/
def getMissingDataFromUpdateEntriesOrStore (s : Store)
    (u : EntriesForPvtDataOfOldBlocks) (ncb : NsCollBlk) : Option Bitmap :=
  match alistLookup u.missingDataEntries ncb with
  | some bm => some bm
  | none => alistLookup s.db.missingDataEntries ⟨ncb, true⟩

/-- The source's `addDataEntry` on the update entries. -/
def EntriesForPvtDataOfOldBlocks.addDataEntry (u : EntriesForPvtDataOfOldBlocks)
    (k : DataKey) (v : CollectionPvtReadWriteSet) : EntriesForPvtDataOfOldBlocks :=
  { u with dataEntries := alistPut u.dataEntries k v }

/-- The source's `updateAndAddExpiryEntry`: move the data key's txNum onto
the present side of the expiry entry and store the updated entry. -/
def EntriesForPvtDataOfOldBlocks.updateAndAddExpiryEntry
    (u : EntriesForPvtDataOfOldBlocks) (ek : ExpiryKey) (ed : ExpiryData)
    (dk : DataKey) : EntriesForPvtDataOfOldBlocks :=
  let ed1 := ed.addPresentData dk.nsCollBlk.ns dk.nsCollBlk.coll dk.txNum
  { u with expiryEntries := alistPut u.expiryEntries ek ed1 }

/-- The source's `updateAndAddMissingDataEntry`: clear the bit at the data
key's txNum and store the updated bitmap. -/
def EntriesForPvtDataOfOldBlocks.updateAndAddMissingDataEntry
    (u : EntriesForPvtDataOfOldBlocks) (bm : Bitmap) (dk : DataKey) :
    EntriesForPvtDataOfOldBlocks :=
  { u with missingDataEntries := alistPut u.missingDataEntries dk.nsCollBlk (bmClear bm dk.txNum) }

/-- One iteration of `constructUpdateEntriesFromDataEntries`: compute the
expiry key from the BTL policy; for an expiring collection fetch the expiry
entry (skip the data entry when it is absent — already expired and purged);
fetch the missing-data bitmap (skip when absent); otherwise add the data
entry and the updated expiry and missing-data entries. -/
def constructUpdateEntriesStep (s : Store) (u : EntriesForPvtDataOfOldBlocks)
    (de : DataKey × CollectionPvtReadWriteSet) : EntriesForPvtDataOfOldBlocks :=
  match getExpiringBlock s.btlPolicy de.1.nsCollBlk.ns de.1.nsCollBlk.coll
      de.1.nsCollBlk.blkNum with
  | some expiringBlk =>
    match getExpiryDataFromUpdateEntriesOrStore s u
        ⟨expiringBlk, de.1.nsCollBlk.blkNum⟩ with
    | none => u
    | some expiryData =>
      match getMissingDataFromUpdateEntriesOrStore s u de.1.nsCollBlk with
      | none => u
      | some missingData =>
        (((u.addDataEntry de.1 de.2).updateAndAddExpiryEntry
          ⟨expiringBlk, de.1.nsCollBlk.blkNum⟩ expiryData de.1)
          |>.updateAndAddMissingDataEntry missingData de.1)
  | none =>
    match getMissingDataFromUpdateEntriesOrStore s u de.1.nsCollBlk with
    | none => u
    | some missingData =>
      (u.addDataEntry de.1 de.2).updateAndAddMissingDataEntry missingData de.1

/-- The source's `constructUpdateEntriesFromDataEntries`. -/
def Store.constructUpdateEntriesFromDataEntries (s : Store)
    (dataEntries : List (DataKey × CollectionPvtReadWriteSet)) :
    EntriesForPvtDataOfOldBlocks :=
  dataEntries.foldl (constructUpdateEntriesStep s) ⟨[], [], []⟩

/-- The source's `constructUpdateBatchFromUpdateEntries` followed by
`commitBatch`, applied to the typed database: put the new data entries and
the updated expiry entries; delete a missing-data entry whose updated
bitmap has no set bits, otherwise put the updated bitmap. -/
def applyUpdateEntries (db : StoreDB) (u : EntriesForPvtDataOfOldBlocks) : StoreDB :=
  let db1 := putDataEntries db u.dataEntries
  let db2 := putExpiryEntries db1 u.expiryEntries
  u.missingDataEntries.foldl
    (fun db e =>
      if bmNone e.2 then
        { db with missingDataEntries :=
            alistRemove db.missingDataEntries (⟨e.1, true⟩ : MissingDataKey) }
      else
        { db with missingDataEntries :=
            alistPut db.missingDataEntries (⟨e.1, true⟩ : MissingDataKey) e.2 })
    db2

/-- The source's `CommitPvtDataOfOldBlocks(blocksPvtData)`: illegal call
while the legacy last-updated-old-blocks marker is set; otherwise construct
the data entries, derive the update entries, and commit the update batch.
The committed height bookkeeping is not touched. -/
def Store.CommitPvtDataOfOldBlocks (s : Store)
    (blocksPvtData : List (Nat × List TxPvtData)) : Option StoreErr × Store :=
  if s.isLastUpdatedOldBlocksSet then
    (some (.illegalCall "The lastUpdatedOldBlocksList is set. It means that the stateDB may not be in sync with the pvtStore"), s)
  else
    let dataEntries := constructDataEntriesFromBlocksPvtData blocksPvtData
    let updateEntries := s.constructUpdateEntriesFromDataEntries dataEntries
    (none, { s with db := applyUpdateEntries s.db updateEntries })

/-! ### The purge sweep -/

/-- Modelled from the spec: the `deriveKeys` helper — from one expiry
entry, the data keys of its present side and the eligible missing-data keys
of its missing side, all at the entry's committing block (spec section 3,
Expiry Entry, and section 4.3 purge sweep). -/
def deriveKeys (ek : ExpiryKey) (ed : ExpiryData) :
    List DataKey × List MissingDataKey :=
  (ed.presentData.map (fun q => ⟨⟨q.1, q.2.1, ek.committingBlk⟩, q.2.2⟩),
    ed.missingData.map (fun q => ⟨⟨q.1, q.2, ek.committingBlk⟩, true⟩))

/-- The source's `retrieveExpiryEntries(minBlkNum, maxBlkNum)`: the expiry
entries whose expiring block lies in the window (the codec's expiry range
scan covers expiring blocks from `minBlkNum` through `maxBlkNum`). -/
def Store.retrieveExpiryEntries (s : Store) (minBlkNum maxBlkNum : Nat) :
    List (ExpiryKey × ExpiryData) :=
  s.db.expiryEntries.filter
    (fun p => decide (minBlkNum ≤ p.1.expiringBlk) && decide (p.1.expiringBlk ≤ maxBlkNum))

/-- The deletions the purge sweep issues for one expiry entry: the expiry
entry itself, its derived data keys and its derived missing-data keys. -/
def purgeEntryDeletes (db : StoreDB) (e : ExpiryKey × ExpiryData) : StoreDB :=
  let db1 := { db with expiryEntries := alistRemove db.expiryEntries e.1 }
  let derived := deriveKeys e.1 e.2
  let db2 := derived.1.foldl
    (fun db k => { db with dataEntries := alistRemove db.dataEntries k }) db1
  derived.2.foldl
    (fun db k => { db with missingDataEntries := alistRemove db.missingDataEntries k })
    db2

/-- The source's `purgeExpiredData(minBlkNum, maxBlkNum)`: retrieve the
expiry entries of the window; when none are found, return without touching
the store; otherwise delete, for every retrieved entry, the expiry entry
and its derived data and missing-data keys. -/
def Store.purgeExpiredData (s : Store) (minBlkNum maxBlkNum : Nat) : Store :=
  let expiryEntries := s.retrieveExpiryEntries minBlkNum maxBlkNum
  if expiryEntries.isEmpty then s
  else { s with db := expiryEntries.foldl purgeEntryDeletes s.db }

/-! ### Reconciliation engine (the kvledger hash-validation split) -/

/-- The committed transaction read/write set, viewed through its
`GetPvtDataHash(ns, coll)` lookup (the only operation the reconciliation
engine uses): the recorded private-data hash of a (ns, coll), or `none`
when the transaction never accessed the collection. -/
abbrev TxRwSet := String → String → Option (List Nat)

/-- The hash function used to validate supplied private data
(`util.ComputeSHA256` in the source, an external collaborator; kept
abstract as a parameter). -/
abbrev HashFn := List Nat → List Nat

/-- `ledger.PvtdataHashMismatch`: one hash-mismatch report. -/
structure PvtdataHashMismatch where
  blockNum : Nat
  txNum : Nat
  ns : String
  coll : String
  expectedHash : List Nat
deriving DecidableEq, Repr

/-- The source's `nsColl` pair. -/
structure NsColl where
  ns : String
  coll : String
deriving DecidableEq, Repr

/-- The source's `findInvalidNsPvtData`: walk one namespace's supplied
collections; a collection without a recorded hash is marked for deletion
without a mismatch report; a collection whose supplied data hashes
differently from the recorded hash yields a mismatch report and is marked
for deletion. -/
def findInvalidNsPvtData (hashFn : HashFn) (nsRwset : NsPvtReadWriteSet)
    (txRWSet : TxRwSet) (blkNum txNum : Nat) :
    List PvtdataHashMismatch × List NsColl :=
  nsRwset.collectionPvtRwset.foldl
    (fun acc collPvtRwset =>
      match txRWSet nsRwset.ns collPvtRwset.collectionName with
      | none => (acc.1, acc.2 ++ [⟨nsRwset.ns, collPvtRwset.collectionName⟩])
      | some rwsetHash =>
        if hashFn collPvtRwset.rwset ≠ rwsetHash then
          (acc.1 ++ [⟨blkNum, txNum, nsRwset.ns, collPvtRwset.collectionName,
              rwsetHash⟩],
            acc.2 ++ [⟨nsRwset.ns, collPvtRwset.collectionName⟩])
        else acc)
    ([], [])

/-- The source's `removeCollFromNsPvtWriteSet`: remove the first collection
with the given name. -/
def removeCollFromNsPvtWriteSet :
    List CollectionPvtReadWriteSet → String → List CollectionPvtReadWriteSet
  | [], _ => []
  | c :: rest, collName =>
    if c.collectionName = collName then rest
    else c :: removeCollFromNsPvtWriteSet rest collName

/-- The source's `removeCollFromTxPvtReadWriteSet`: in the first namespace
entry matching `ns`, remove the collection `coll`; drop the namespace entry
when its collection list becomes empty. -/
def removeCollFromTxPvtReadWriteSet :
    List NsPvtReadWriteSet → String → String → List NsPvtReadWriteSet
  | [], _, _ => []
  | n :: rest, ns, coll =>
    if n.ns ≠ ns then n :: removeCollFromTxPvtReadWriteSet rest ns coll
    else
      if (removeCollFromNsPvtWriteSet n.collectionPvtRwset coll).isEmpty then rest
      else ⟨n.ns, removeCollFromNsPvtWriteSet n.collectionPvtRwset coll⟩ :: rest

/-- The source's `findValidAndInvalidTxPvtData`: collect the invalid
(ns, coll) pairs and the mismatch reports of one transaction, remove the
invalid pairs from its write-set, and drop the transaction entirely when
no namespace entry is left. -/
def findValidAndInvalidTxPvtData (hashFn : HashFn) (txPvtData : TxPvtData)
    (txRWSet : TxRwSet) (blkNum : Nat) :
    Option TxPvtData × List PvtdataHashMismatch :=
  let txNum := txPvtData.seqInBlock
  let collected := txPvtData.writeSet.nsPvtRwset.foldl
    (fun acc nsRwset =>
      (acc.1 ++ (findInvalidNsPvtData hashFn nsRwset txRWSet blkNum txNum).1,
        acc.2 ++ (findInvalidNsPvtData hashFn nsRwset txRWSet blkNum txNum).2))
    ([], [])
  let ws1 := collected.2.foldl
    (fun l nc => removeCollFromTxPvtReadWriteSet l nc.ns nc.coll)
    txPvtData.writeSet.nsPvtRwset
  if ws1.isEmpty then (none, collected.1)
  else (some { txPvtData with writeSet := ⟨ws1⟩ }, collected.1)

/-! ### Predicates and characterizations used by the theorems -/

/-- Does a write-set contain collection `(ns, coll)`? -/
def wsContainsNsColl (ws : TxPvtReadWriteSet) (ns coll : String) : Bool :=
  ws.nsPvtRwset.any (fun n =>
    decide (n.ns = ns) &&
      n.collectionPvtRwset.any (fun c => decide (c.collectionName = coll)))

/-- Data-entry well-formedness of a database: every stored collection
rwset carries the collection name of its key (true of everything the store
itself writes). -/
def dbDataWellFormed (db : StoreDB) : Prop :=
  ∀ p ∈ db.dataEntries, p.2.collectionName = p.1.nsCollBlk.coll

/-- No expiry entry of the database references collection `(ns, coll)`. -/
def noExpiryRef (db : StoreDB) (ns coll : String) : Prop :=
  ∀ p ∈ db.expiryEntries, p.2.mentions ns coll = false

/-- A supplied collection rwset is good when the transaction recorded a
hash for it and the supplied data hashes to that recorded hash. -/
def goodColl (hashFn : HashFn) (txRWSet : TxRwSet) (ns : String)
    (c : CollectionPvtReadWriteSet) : Bool :=
  match txRWSet ns c.collectionName with
  | none => false
  | some h => decide (hashFn c.rwset = h)

/-- The good part of a write-set: per namespace, the good collections;
namespace entries whose collections are all bad are dropped. -/
def filterGoodNsPvtRwset (hashFn : HashFn) (txRWSet : TxRwSet)
    (l : List NsPvtReadWriteSet) : List NsPvtReadWriteSet :=
  (l.map (fun n =>
    (⟨n.ns, n.collectionPvtRwset.filter (goodColl hashFn txRWSet n.ns)⟩ :
      NsPvtReadWriteSet))).filter
    (fun n => !n.collectionPvtRwset.isEmpty)

/-- The mismatch reports one namespace's collection list ought to produce:
one per collection with a recorded hash that the supplied data fails to
match. -/
def emNsList (hashFn : HashFn) (txRWSet : TxRwSet) (blkNum txNum : Nat)
    (ns : String) (colls : List CollectionPvtReadWriteSet) :
    List PvtdataHashMismatch :=
  colls.filterMap (fun c =>
    match txRWSet ns c.collectionName with
    | none => none
    | some h =>
      if hashFn c.rwset = h then none
      else some ⟨blkNum, txNum, ns, c.collectionName, h⟩)

/-- The invalid `(ns, coll)` pairs of one namespace's collection list: the
collections that are not good (no recorded hash, or a hash mismatch). -/
def badNsList (hashFn : HashFn) (txRWSet : TxRwSet) (ns : String)
    (colls : List CollectionPvtReadWriteSet) : List NsColl :=
  (colls.filter (fun c => !goodColl hashFn txRWSet ns c)).map
    (fun c => ⟨ns, c.collectionName⟩)

/-- The mismatch reports a write-set ought to produce. -/
def expectedMismatches (hashFn : HashFn) (txRWSet : TxRwSet) (blkNum txNum : Nat)
    (l : List NsPvtReadWriteSet) : List PvtdataHashMismatch :=
  l.flatMap (fun n => emNsList hashFn txRWSet blkNum txNum n.ns n.collectionPvtRwset)

/-- The invalid `(ns, coll)` pairs of a write-set. -/
def badPairs (hashFn : HashFn) (txRWSet : TxRwSet) (l : List NsPvtReadWriteSet) :
    List NsColl :=
  l.flatMap (fun n => badNsList hashFn txRWSet n.ns n.collectionPvtRwset)

/-- Well-formedness of a transaction write-set: namespaces are distinct,
and each namespace entry has a duplicate-free, nonempty collection list. -/
def wsWellFormed (l : List NsPvtReadWriteSet) : Prop :=
  (l.map NsPvtReadWriteSet.ns).Nodup ∧
    ∀ n ∈ l, (n.collectionPvtRwset.map CollectionPvtReadWriteSet.collectionName).Nodup ∧
      n.collectionPvtRwset ≠ []

/-- Is a result an out-of-range error? -/
def isOutOfRangeErr {α : Type} : Except StoreErr α → Bool
  | .error (.outOfRange _) => true
  | _ => false

/-- The skip condition of `CommitPvtDataOfOldBlocks` for one supplied data
entry, stated against the store and depending only on the entry's
`nsCollBlk`: for an expiring collection, the shared expiry entry is absent,
or the eligible missing-data bitmap is absent. -/
def skippedEntry (s : Store) (ncb : NsCollBlk) : Bool :=
  match getExpiringBlock s.btlPolicy ncb.ns ncb.coll ncb.blkNum with
  | some expiringBlk =>
    (alistLookup s.db.expiryEntries ⟨expiringBlk, ncb.blkNum⟩).isNone ||
      (alistLookup s.db.missingDataEntries ⟨ncb, true⟩).isNone
  | none => (alistLookup s.db.missingDataEntries ⟨ncb, true⟩).isNone

/-- The update entries `CommitPvtDataOfOldBlocks` derives from its input
(steps (1) and (2) of the source function), named for use in theorem
statements. -/
def updateEntriesOf (s : Store) (blocksPvtData : List (Nat × List TxPvtData)) :
    EntriesForPvtDataOfOldBlocks :=
  s.constructUpdateEntriesFromDataEntries
    (constructDataEntriesFromBlocksPvtData blocksPvtData)

/-- Does an assembled entry list contain collection `(ns, coll)`
(namespace from the data key, collection name from the stored value)? -/
def entriesContains (l : List (String × CollectionPvtReadWriteSet))
    (ns coll : String) : Bool :=
  l.any (fun q => decide (q.1 = ns) && decide (q.2.collectionName = coll))

/-- Does a per-namespace rwset list contain collection `(ns, coll)`? -/
def nsListContains (l : List NsPvtReadWriteSet) (ns coll : String) : Bool :=
  l.any (fun n =>
    decide (n.ns = ns) &&
      n.collectionPvtRwset.any (fun c => decide (c.collectionName = coll)))

/-- Membership of one missing-data item in accumulated missing-data info. -/
def infoMem (info : MissingPvtDataInfo) (b : Nat) (x : Nat × String × String) :
    Prop :=
  ∃ lst, alistLookup info b = some lst ∧ x ∈ lst

/-- Invariant of the update-entries accumulator of
`constructUpdateEntriesFromDataEntries`: every accumulated expiry key was
present in the store, and every accumulated missing-data or data entry
belongs to a non-skipped `nsCollBlk`. -/
def updInv (s : Store) (u : EntriesForPvtDataOfOldBlocks) : Prop :=
  (∀ ek : ExpiryKey, (alistLookup u.expiryEntries ek).isSome →
      (alistLookup s.db.expiryEntries ek).isSome) ∧
    (∀ ncb : NsCollBlk, (alistLookup u.missingDataEntries ncb).isSome →
      skippedEntry s ncb = false) ∧
    (∀ dk : DataKey, (alistLookup u.dataEntries dk).isSome →
      skippedEntry s dk.nsCollBlk = false)

/-- Invariant of the update-entries accumulator for the bitmap-clearing
claim: the accumulated missing-data keys are distinct, and every merged
data entry has an accumulated bitmap for its `nsCollBlk` in which its own
transaction bit is cleared. -/
def clearedInv (u : EntriesForPvtDataOfOldBlocks) : Prop :=
  (u.missingDataEntries.map Prod.fst).Nodup ∧
    ∀ dk : DataKey, (alistLookup u.dataEntries dk).isSome →
      ∃ bm, alistLookup u.missingDataEntries dk.nsCollBlk = some bm ∧
        dk.txNum ∉ bm

/-! ### Concrete fixtures used by the witness theorems -/

/-- A witness BTL policy: BTL 2 for namespace `nsW`, never-expiring
otherwise. -/
def polW : BTLPolicy := fun ns _ => if ns = "nsW" then 2 else 0

/-- A witness store that is still empty. -/
def storeEmptyW : Store :=
  ⟨polW, true, 0, false, ⟨[], [], [], none⟩⟩

/-- A witness data key at block 0. -/
def dataKeyW : DataKey := ⟨⟨"nsW", "collW", 0⟩, 3⟩

/-- A witness store holding one data entry, its expiry entry and one
eligible missing-data entry for block 0, with last committed block 4
(so the block-0 data of the BTL-2 namespace is already expired). -/
def storeW : Store :=
  ⟨polW, false, 4, false,
    ⟨[(dataKeyW, ⟨"collW", [1, 2]⟩)],
      [(⟨3, 0⟩, ⟨[("nsW", "collW", 3)], [("nsW", "collW")]⟩)],
      [(⟨⟨"nsW", "collW", 0⟩, true⟩, [5])],
      some 4⟩⟩

/-- A witness store for the never-expiring claims: BTL 0 everywhere, one
data entry and one eligible missing-data entry, no expiry entries. -/
def storeBtl0W : Store :=
  ⟨(fun _ _ => 0), false, 4, false,
    ⟨[(⟨⟨"ns0", "coll0", 1⟩, 7⟩, ⟨"coll0", [9]⟩)],
      [],
      [(⟨⟨"ns0", "coll0", 1⟩, true⟩, [7, 8])],
      some 4⟩⟩

/-- The identity hash used to instantiate the abstract hash function in
concrete counterexamples and witnesses. -/
def idHash : HashFn := fun l => l

/-- A reconciled transaction whose write-set lists namespace `ns1` twice:
first with collections `collA` and `collB`, then with `collA` again. -/
def txDupNs : TxPvtData :=
  ⟨0, ⟨[⟨"ns1", [⟨"collA", [1]⟩, ⟨"collB", [2]⟩]⟩, ⟨"ns1", [⟨"collA", [1]⟩]⟩]⟩⟩

/-- A committed read/write set recording a hash only for
`("ns1", "collB")` (matching `idHash [2]`); `collA` was never accessed. -/
def rwsetDupNs : TxRwSet :=
  fun ns coll => if ns = "ns1" ∧ coll = "collB" then some [2] else none

/-- A well-formed reconciled transaction for the witness: one namespace,
two collections, of which `collA` was never accessed and `collB` matches
its recorded hash. -/
def txRecW : TxPvtData :=
  ⟨4, ⟨[⟨"ns1", [⟨"collA", [1]⟩, ⟨"collB", [2]⟩, ⟨"collC", [3]⟩]⟩]⟩⟩

/-- The committed read/write set for the witness transaction: no hash for
`collA`, a matching hash for `collB`, a mismatching hash for `collC`. -/
def rwsetRecW : TxRwSet :=
  fun ns coll =>
    if ns = "ns1" ∧ coll = "collB" then some [2]
    else if ns = "ns1" ∧ coll = "collC" then some [7]
    else none

/-- A scan state from which block `b`'s segment is processed without a
break: not stopped, and if the max-block limit flag is raised then `b`
itself is the recorded last processed block. -/
def goodScanSt (b : Nat) (st : MissingScanState) : Prop :=
  st.stopped = false ∧
    (st.isMaxBlockLimitReached = true → st.lastProcessedBlock = b)

/-- The counting invariant of the missing-data scan: the accumulated info
keys are distinct, and the distinct-block budget `maxBlock` is respected —
before the limit flag is raised the counter (an upper bound on the number
of keys) stays below `maxBlock`, afterwards the keys other than the last
processed block stay below it, and once stopped the key count is final and
at most `maxBlock`. -/
def missingScanLenInv (maxBlock : Int) (st : MissingScanState) : Prop :=
  (st.missingPvtDataInfo.map Prod.fst).Nodup ∧
    (st.stopped = true → (st.missingPvtDataInfo.length : Int) ≤ maxBlock) ∧
    (st.stopped = false → st.isMaxBlockLimitReached = true →
      ((st.missingPvtDataInfo.filter
          (fun p => decide (p.1 ≠ st.lastProcessedBlock))).length : Int) + 1 ≤
        maxBlock) ∧
    (st.stopped = false → st.isMaxBlockLimitReached = false →
      (st.missingPvtDataInfo.length : Int) ≤ st.numberOfBlockProcessed ∧
        st.numberOfBlockProcessed + 1 ≤ maxBlock)

/-- Provenance of one accumulated missing-data item: it stems from a
non-expired eligible missing-data entry of its block. -/
def missingProv (db : StoreDB) (pol : BTLPolicy) (last : Nat) (b : Nat)
    (x : Nat × String × String) : Prop :=
  ∃ p, p ∈ eligibleMissingEntriesForBlk db b ∧
    isExpired p.1.nsCollBlk pol last = false ∧
    x.2.1 = p.1.nsCollBlk.ns ∧ x.2.2 = p.1.nsCollBlk.coll ∧ x.1 ∈ p.2

/-- Completeness of accumulated info for block `b`: every set bit of every
non-expired eligible missing-data entry of `b` is recorded under `b`. -/
def missingComp (db : StoreDB) (pol : BTLPolicy) (last : Nat) (b : Nat)
    (info : MissingPvtDataInfo) : Prop :=
  ∀ p ∈ eligibleMissingEntriesForBlk db b,
    isExpired p.1.nsCollBlk pol last = false →
    ∀ t ∈ p.2, infoMem info b (t, p.1.nsCollBlk.ns, p.1.nsCollBlk.coll)

/-! ## Lemmas about association-list maps -/

theorem alistLookup_cons {κ α : Type} [DecidableEq κ] (p : κ × α)
    (t : List (κ × α)) (k : κ) :
    alistLookup (p :: t) k = if p.1 = k then some p.2 else alistLookup t k := rfl

theorem alistLookup_put_self {κ α : Type} [DecidableEq κ] (l : List (κ × α))
    (k : κ) (v : α) : alistLookup (alistPut l k v) k = some v := by
  simp [alistPut, alistLookup]

theorem alistLookup_filter_ne {κ α : Type} [DecidableEq κ] (l : List (κ × α))
    (k k' : κ) (h : k' ≠ k) :
    alistLookup (l.filter (fun p => decide (p.1 ≠ k))) k' = alistLookup l k' := by
  induction l with
  | nil => rfl
  | cons p t ih =>
    by_cases hp : p.1 = k
    · have hfilter : (p :: t).filter (fun q => decide (q.1 ≠ k)) =
          t.filter (fun q => decide (q.1 ≠ k)) := by
        simp [List.filter_cons, hp]
      rw [hfilter, ih, alistLookup_cons, if_neg (fun e => h (e.symm.trans hp))]
    · have hfilter : (p :: t).filter (fun q => decide (q.1 ≠ k)) =
          p :: t.filter (fun q => decide (q.1 ≠ k)) := by
        simp [List.filter_cons, hp]
      rw [hfilter, alistLookup_cons, alistLookup_cons, ih]

theorem alistLookup_put_ne {κ α : Type} [DecidableEq κ] (l : List (κ × α))
    (k k' : κ) (v : α) (h : k' ≠ k) :
    alistLookup (alistPut l k v) k' = alistLookup l k' := by
  rw [alistPut, alistLookup_cons, if_neg (fun e => h e.symm)]
  exact alistLookup_filter_ne l k k' h

theorem alistLookup_remove_self {κ α : Type} [DecidableEq κ] (l : List (κ × α))
    (k : κ) : alistLookup (alistRemove l k) k = none := by
  induction l with
  | nil => rfl
  | cons p t ih =>
    by_cases hp : p.1 = k
    · have hfilter : alistRemove (p :: t) k = alistRemove t k := by
        simp [alistRemove, List.filter_cons, hp]
      rw [hfilter, ih]
    · have hfilter : alistRemove (p :: t) k = p :: alistRemove t k := by
        simp [alistRemove, List.filter_cons, hp]
      rw [hfilter, alistLookup_cons, if_neg hp, ih]

theorem alistLookup_remove_ne {κ α : Type} [DecidableEq κ] (l : List (κ × α))
    (k k' : κ) (h : k' ≠ k) :
    alistLookup (alistRemove l k) k' = alistLookup l k' :=
  alistLookup_filter_ne l k k' h

theorem alistLookup_mem {κ α : Type} [DecidableEq κ] (l : List (κ × α))
    (k : κ) (v : α) (h : alistLookup l k = some v) : (k, v) ∈ l := by
  induction l with
  | nil => simp [alistLookup] at h
  | cons p t ih =>
    rw [alistLookup_cons] at h
    by_cases hp : p.1 = k
    · rw [if_pos hp] at h
      have hv : p.2 = v := Option.some.inj h
      have hpkv : p = (k, v) := Prod.ext hp hv
      rw [hpkv]
      exact List.mem_cons_self _ _
    · rw [if_neg hp] at h
      exact List.mem_cons_of_mem _ (ih h)

theorem mem_alistPut {κ α : Type} [DecidableEq κ] (l : List (κ × α))
    (k : κ) (v : α) (p : κ × α) (h : p ∈ alistPut l k v) :
    p = (k, v) ∨ (p ∈ l ∧ p.1 ≠ k) := by
  rcases List.mem_cons.mp h with h | h
  · exact Or.inl h
  · right
    have := List.mem_filter.mp h
    exact ⟨this.1, by simpa using this.2⟩

theorem mem_alistRemove {κ α : Type} [DecidableEq κ] (l : List (κ × α))
    (k : κ) (p : κ × α) (h : p ∈ alistRemove l k) : p ∈ l ∧ p.1 ≠ k := by
  have := List.mem_filter.mp h
  exact ⟨this.1, by simpa using this.2⟩

theorem alistPut_keys_nodup {κ α : Type} [DecidableEq κ] (l : List (κ × α))
    (k : κ) (v : α) (h : (l.map Prod.fst).Nodup) :
    ((alistPut l k v).map Prod.fst).Nodup := by
  simp only [alistPut, List.map_cons, List.nodup_cons]
  constructor
  · intro hk
    rcases List.mem_map.mp hk with ⟨p, hp, hpk⟩
    have := (List.mem_filter.mp hp).2
    simp [hpk] at this
  · exact List.Nodup.sublist ((List.filter_sublist l).map Prod.fst) h

/-! ## Component lemmas for batch application -/

theorem putDataEntries_expiryEntries (l : List (DataKey × CollectionPvtReadWriteSet))
    (db : StoreDB) : (putDataEntries db l).expiryEntries = db.expiryEntries := by
  induction l generalizing db with
  | nil => rfl
  | cons e t ih => simpa [putDataEntries] using ih _

theorem putDataEntries_missingDataEntries
    (l : List (DataKey × CollectionPvtReadWriteSet)) (db : StoreDB) :
    (putDataEntries db l).missingDataEntries = db.missingDataEntries := by
  induction l generalizing db with
  | nil => rfl
  | cons e t ih => simpa [putDataEntries] using ih _

theorem putDataEntries_lastCommittedBlkVal
    (l : List (DataKey × CollectionPvtReadWriteSet)) (db : StoreDB) :
    (putDataEntries db l).lastCommittedBlkVal = db.lastCommittedBlkVal := by
  induction l generalizing db with
  | nil => rfl
  | cons e t ih => simpa [putDataEntries] using ih _

theorem putExpiryEntries_dataEntries (l : List (ExpiryKey × ExpiryData))
    (db : StoreDB) : (putExpiryEntries db l).dataEntries = db.dataEntries := by
  induction l generalizing db with
  | nil => rfl
  | cons e t ih => simpa [putExpiryEntries] using ih _

theorem putExpiryEntries_missingDataEntries (l : List (ExpiryKey × ExpiryData))
    (db : StoreDB) :
    (putExpiryEntries db l).missingDataEntries = db.missingDataEntries := by
  induction l generalizing db with
  | nil => rfl
  | cons e t ih => simpa [putExpiryEntries] using ih _

theorem putExpiryEntries_lastCommittedBlkVal (l : List (ExpiryKey × ExpiryData))
    (db : StoreDB) :
    (putExpiryEntries db l).lastCommittedBlkVal = db.lastCommittedBlkVal := by
  induction l generalizing db with
  | nil => rfl
  | cons e t ih => simpa [putExpiryEntries] using ih _

theorem putMissingDataEntries_dataEntries (l : List (MissingDataKey × Bitmap))
    (db : StoreDB) : (putMissingDataEntries db l).dataEntries = db.dataEntries := by
  induction l generalizing db with
  | nil => rfl
  | cons e t ih => simpa [putMissingDataEntries] using ih _

theorem putMissingDataEntries_expiryEntries (l : List (MissingDataKey × Bitmap))
    (db : StoreDB) : (putMissingDataEntries db l).expiryEntries = db.expiryEntries := by
  induction l generalizing db with
  | nil => rfl
  | cons e t ih => simpa [putMissingDataEntries] using ih _

theorem putMissingDataEntries_lastCommittedBlkVal
    (l : List (MissingDataKey × Bitmap)) (db : StoreDB) :
    (putMissingDataEntries db l).lastCommittedBlkVal = db.lastCommittedBlkVal := by
  induction l generalizing db with
  | nil => rfl
  | cons e t ih => simpa [putMissingDataEntries] using ih _

theorem missingUpdFold_dataEntries (m : List (NsCollBlk × Bitmap)) (db : StoreDB) :
    (m.foldl
      (fun db e =>
        if bmNone e.2 then
          { db with missingDataEntries :=
              alistRemove db.missingDataEntries (⟨e.1, true⟩ : MissingDataKey) }
        else
          { db with missingDataEntries :=
              alistPut db.missingDataEntries (⟨e.1, true⟩ : MissingDataKey) e.2 })
      db).dataEntries = db.dataEntries := by
  induction m generalizing db with
  | nil => rfl
  | cons e t ih =>
    by_cases hb : bmNone e.2
    · simpa [List.foldl, hb] using ih _
    · simpa [List.foldl, hb] using ih _

theorem missingUpdFold_expiryEntries (m : List (NsCollBlk × Bitmap)) (db : StoreDB) :
    (m.foldl
      (fun db e =>
        if bmNone e.2 then
          { db with missingDataEntries :=
              alistRemove db.missingDataEntries (⟨e.1, true⟩ : MissingDataKey) }
        else
          { db with missingDataEntries :=
              alistPut db.missingDataEntries (⟨e.1, true⟩ : MissingDataKey) e.2 })
      db).expiryEntries = db.expiryEntries := by
  induction m generalizing db with
  | nil => rfl
  | cons e t ih =>
    by_cases hb : bmNone e.2
    · simpa [List.foldl, hb] using ih _
    · simpa [List.foldl, hb] using ih _

theorem missingUpdFold_lastCommittedBlkVal (m : List (NsCollBlk × Bitmap))
    (db : StoreDB) :
    (m.foldl
      (fun db e =>
        if bmNone e.2 then
          { db with missingDataEntries :=
              alistRemove db.missingDataEntries (⟨e.1, true⟩ : MissingDataKey) }
        else
          { db with missingDataEntries :=
              alistPut db.missingDataEntries (⟨e.1, true⟩ : MissingDataKey) e.2 })
      db).lastCommittedBlkVal = db.lastCommittedBlkVal := by
  induction m generalizing db with
  | nil => rfl
  | cons e t ih =>
    by_cases hb : bmNone e.2
    · simpa [List.foldl, hb] using ih _
    · simpa [List.foldl, hb] using ih _

theorem applyUpdateEntries_lastCommittedBlkVal (db : StoreDB)
    (u : EntriesForPvtDataOfOldBlocks) :
    (applyUpdateEntries db u).lastCommittedBlkVal = db.lastCommittedBlkVal := by
  simp only [applyUpdateEntries]
  rw [missingUpdFold_lastCommittedBlkVal, putExpiryEntries_lastCommittedBlkVal,
    putDataEntries_lastCommittedBlkVal]

/-! ## Claim C1 -/

/-- Claim C1: `Commit(blockNum, ...)` succeeds only when `blockNum` is the
next expected block number (0 on an empty store, `lastCommittedBlock + 1`
otherwise); for any other block number it returns an `ErrIllegalArgs`
whose message names the expected and the received number, and the store —
including the in-memory `isEmpty`/`lastCommittedBlock` state and the
persisted last-committed-block key — is unchanged. -/
theorem c1_sequential_commit (s : Store) (blockNum : Nat)
    (pvtData : List TxPvtData) (missingPvtData : TxMissingPvtDataMap) :
    ((s.Commit blockNum pvtData missingPvtData).1 = none →
      blockNum = s.nextBlockNum) ∧
    (blockNum ≠ s.nextBlockNum →
      (s.Commit blockNum pvtData missingPvtData).1 =
        some (StoreErr.illegalArgs ("Expected block number=" ++
          toString s.nextBlockNum ++ ", received block number=" ++
          toString blockNum)) ∧
      (s.Commit blockNum pvtData missingPvtData).2 = s) := by
  by_cases h : s.nextBlockNum ≠ blockNum
  · constructor
    · intro hnone
      simp [Store.Commit, h] at hnone
    · intro _
      simp [Store.Commit, h]
  · push_neg at h
    constructor
    · intro _
      exact h.symm
    · intro hne
      exact absurd h.symm hne

/-- Witness for C1: committing block 5 to the empty store fails with the
illegal-argument message naming expected 0 and received 5, and leaves the
store unchanged. -/
theorem c1_sequential_commit_witness :
    (5 : Nat) ≠ storeEmptyW.nextBlockNum ∧
    ((storeEmptyW.Commit 5 [] []).1 =
      some (StoreErr.illegalArgs ("Expected block number=" ++
        toString storeEmptyW.nextBlockNum ++ ", received block number=" ++
        toString (5 : Nat))) ∧
      (storeEmptyW.Commit 5 [] []).2 = storeEmptyW) :=
  ⟨by decide, (c1_sequential_commit storeEmptyW 5 [] []).2 (by decide)⟩

/-! ## Claim C9 -/

/-- Claim C9: `CommitPvtDataOfOldBlocks` never changes the committed
height: on every input and every outcome, the in-memory `isEmpty` flag and
`lastCommittedBlock` counter and the persisted last-committed-block key
are unchanged. -/
theorem c9_old_blocks_height_frame (s : Store)
    (blocksPvtData : List (Nat × List TxPvtData)) :
    (s.CommitPvtDataOfOldBlocks blocksPvtData).2.isEmpty = s.isEmpty ∧
    (s.CommitPvtDataOfOldBlocks blocksPvtData).2.lastCommittedBlock =
      s.lastCommittedBlock ∧
    (s.CommitPvtDataOfOldBlocks blocksPvtData).2.db.lastCommittedBlkVal =
      s.db.lastCommittedBlkVal := by
  unfold Store.CommitPvtDataOfOldBlocks
  by_cases h : s.isLastUpdatedOldBlocksSet
  · simp [h]
  · simp only [h, Bool.false_eq_true, if_false]
    refine ⟨?_, ?_, ?_⟩ <;>
      first
        | trivial
        | exact applyUpdateEntries_lastCommittedBlkVal s.db _

/-! ## Claim C4 -/

/-- Claim C4: `GetPvtDataByBlockNum` returns an out-of-range error exactly
when the store is empty or the requested block number exceeds the last
committed block; in particular the boundary request at the last committed
block itself passes the range check and succeeds. -/
theorem c4_get_out_of_range (s : Store) (blockNum : Nat)
    (filter : PvtNsCollFilter) :
    isOutOfRangeErr (s.GetPvtDataByBlockNum blockNum filter) =
      (s.isEmpty || decide (blockNum > s.lastCommittedBlock)) ∧
    (s.isEmpty = false →
      ∃ l, s.GetPvtDataByBlockNum s.lastCommittedBlock filter = Except.ok l) := by
  constructor
  · unfold Store.GetPvtDataByBlockNum
    by_cases he : s.isEmpty
    · simp [he, isOutOfRangeErr]
    · by_cases hb : blockNum > s.lastCommittedBlock
      · simp [he, hb, isOutOfRangeErr]
      · simp [he, hb, isOutOfRangeErr]
  · intro he
    unfold Store.GetPvtDataByBlockNum
    simp [he]

/-- Witness for C4: on a concrete nonempty store the boundary read at the
last committed block succeeds, and the out-of-range characterization holds
for a block number beyond the committed height. -/
theorem c4_get_out_of_range_witness :
    storeW.isEmpty = false ∧
    (∃ l, storeW.GetPvtDataByBlockNum storeW.lastCommittedBlock none = Except.ok l) ∧
    isOutOfRangeErr (storeW.GetPvtDataByBlockNum 9 none) =
      (storeW.isEmpty || decide (9 > storeW.lastCommittedBlock)) :=
  ⟨rfl, (c4_get_out_of_range storeW 9 none).2 rfl, (c4_get_out_of_range storeW 9 none).1⟩

/-! ## Purge lemmas and claim C8 -/

theorem dataRemoveFold_expiryEntries (ks : List DataKey) (db : StoreDB) :
    (ks.foldl (fun db k => { db with dataEntries := alistRemove db.dataEntries k })
      db).expiryEntries = db.expiryEntries := by
  induction ks generalizing db with
  | nil => rfl
  | cons k t ih => simpa [List.foldl] using ih _

theorem dataRemoveFold_missingDataEntries (ks : List DataKey) (db : StoreDB) :
    (ks.foldl (fun db k => { db with dataEntries := alistRemove db.dataEntries k })
      db).missingDataEntries = db.missingDataEntries := by
  induction ks generalizing db with
  | nil => rfl
  | cons k t ih => simpa [List.foldl] using ih _

theorem missingRemoveFold_expiryEntries (ks : List MissingDataKey) (db : StoreDB) :
    (ks.foldl
      (fun db k => { db with missingDataEntries := alistRemove db.missingDataEntries k })
      db).expiryEntries = db.expiryEntries := by
  induction ks generalizing db with
  | nil => rfl
  | cons k t ih => simpa [List.foldl] using ih _

theorem missingRemoveFold_dataEntries (ks : List MissingDataKey) (db : StoreDB) :
    (ks.foldl
      (fun db k => { db with missingDataEntries := alistRemove db.missingDataEntries k })
      db).dataEntries = db.dataEntries := by
  induction ks generalizing db with
  | nil => rfl
  | cons k t ih => simpa [List.foldl] using ih _

theorem purgeEntryDeletes_expiryEntries (db : StoreDB) (e : ExpiryKey × ExpiryData) :
    (purgeEntryDeletes db e).expiryEntries = alistRemove db.expiryEntries e.1 := by
  simp only [purgeEntryDeletes]
  rw [missingRemoveFold_expiryEntries, dataRemoveFold_expiryEntries]

theorem purgeFold_expiry_mem (L : List (ExpiryKey × ExpiryData)) (db : StoreDB)
    (p : ExpiryKey × ExpiryData)
    (h : p ∈ (L.foldl purgeEntryDeletes db).expiryEntries) :
    p ∈ db.expiryEntries ∧ p.1 ∉ L.map Prod.fst := by
  induction L generalizing db with
  | nil => exact ⟨h, by simp⟩
  | cons e t ih =>
    have hstep := ih (purgeEntryDeletes db e) (by simpa [List.foldl] using h)
    rw [purgeEntryDeletes_expiryEntries] at hstep
    have hm := mem_alistRemove _ _ _ hstep.1
    refine ⟨hm.1, ?_⟩
    simp only [List.map_cons, List.mem_cons, not_or]
    exact ⟨hm.2, hstep.2⟩

/-- Claim C8: the purge sweep is idempotent — over any block window,
running `purgeExpiredData` twice yields the same store as running it once:
the second run finds the window's expiry entries already deleted and makes
no modification. -/
theorem c8_purge_idempotent (s : Store) (minBlkNum maxBlkNum : Nat) :
    (s.purgeExpiredData minBlkNum maxBlkNum).purgeExpiredData minBlkNum maxBlkNum =
      s.purgeExpiredData minBlkNum maxBlkNum := by
  by_cases h0 : (s.retrieveExpiryEntries minBlkNum maxBlkNum).isEmpty
  · have hs : s.purgeExpiredData minBlkNum maxBlkNum = s := by
      unfold Store.purgeExpiredData
      simp [h0]
    rw [hs]
    exact hs
  · set s1 := s.purgeExpiredData minBlkNum maxBlkNum with hs1
    have hdb : s1.db =
        (s.retrieveExpiryEntries minBlkNum maxBlkNum).foldl purgeEntryDeletes s.db := by
      rw [hs1]
      unfold Store.purgeExpiredData
      simp [h0]
    have hempty : s1.retrieveExpiryEntries minBlkNum maxBlkNum = [] := by
      apply List.eq_nil_iff_forall_not_mem.mpr
      intro p hp
      have hmem := List.mem_filter.mp hp
      rw [hdb] at hmem
      have h2 := purgeFold_expiry_mem _ _ _ hmem.1
      apply h2.2
      exact List.mem_map.mpr
        ⟨p, List.mem_filter.mpr ⟨h2.1, hmem.2⟩, rfl⟩
    unfold Store.purgeExpiredData
    simp [hempty]

/-! ## Update-entries invariant lemmas and claim C10 -/

theorem updInv_empty (s : Store) : updInv s ⟨[], [], []⟩ := by
  refine ⟨?_, ?_, ?_⟩ <;> intro k h <;> simp [alistLookup] at h

theorem skippedEntry_false_of_merge (s : Store) (u : EntriesForPvtDataOfOldBlocks)
    (hinv : updInv s u) (ncb : NsCollBlk)
    (hmiss : (getMissingDataFromUpdateEntriesOrStore s u ncb).isSome)
    (hexp : ∀ expiringBlk,
      getExpiringBlock s.btlPolicy ncb.ns ncb.coll ncb.blkNum = some expiringBlk →
      (getExpiryDataFromUpdateEntriesOrStore s u ⟨expiringBlk, ncb.blkNum⟩).isSome) :
    skippedEntry s ncb = false := by
  have hbm : (alistLookup s.db.missingDataEntries ⟨ncb, true⟩).isSome ∨
      skippedEntry s ncb = false := by
    unfold getMissingDataFromUpdateEntriesOrStore at hmiss
    cases hu : alistLookup u.missingDataEntries ncb with
    | some bm => exact Or.inr (hinv.2.1 ncb (by simp [hu]))
    | none =>
      rw [hu] at hmiss
      exact Or.inl hmiss
  rcases hbm with hbm | hdone
  · obtain ⟨bm, hbmv⟩ := Option.isSome_iff_exists.mp hbm
    cases hblk : getExpiringBlock s.btlPolicy ncb.ns ncb.coll ncb.blkNum with
    | none => simp [skippedEntry, hblk, hbmv]
    | some expiringBlk =>
      have hst : (alistLookup s.db.expiryEntries
          (⟨expiringBlk, ncb.blkNum⟩ : ExpiryKey)).isSome := by
        have h1 := hexp expiringBlk hblk
        unfold getExpiryDataFromUpdateEntriesOrStore at h1
        cases hu : alistLookup u.expiryEntries (⟨expiringBlk, ncb.blkNum⟩ : ExpiryKey) with
        | some ed =>
          exact hinv.1 (⟨expiringBlk, ncb.blkNum⟩ : ExpiryKey) (by rw [hu]; rfl)
        | none =>
          rw [hu] at h1
          exact h1
      obtain ⟨ed, hedv⟩ := Option.isSome_iff_exists.mp hst
      simp [skippedEntry, hblk, hbmv, hedv]
  · exact hdone

theorem constructUpdateEntriesStep_skip (s : Store)
    (u : EntriesForPvtDataOfOldBlocks) (de : DataKey × CollectionPvtReadWriteSet)
    (hinv : updInv s u) (hskip : skippedEntry s de.1.nsCollBlk = true) :
    constructUpdateEntriesStep s u de = u := by
  cases hblk : getExpiringBlock s.btlPolicy de.1.nsCollBlk.ns de.1.nsCollBlk.coll
      de.1.nsCollBlk.blkNum with
  | some expiringBlk =>
    cases hexp : getExpiryDataFromUpdateEntriesOrStore s u
        (⟨expiringBlk, de.1.nsCollBlk.blkNum⟩ : ExpiryKey) with
    | none => simp [constructUpdateEntriesStep, hblk, hexp]
    | some expiryData =>
      cases hmiss : getMissingDataFromUpdateEntriesOrStore s u de.1.nsCollBlk with
      | none => simp [constructUpdateEntriesStep, hblk, hexp, hmiss]
      | some missingData =>
        exfalso
        have hfalse := skippedEntry_false_of_merge s u hinv de.1.nsCollBlk
          (by simp [hmiss])
          (fun e he => by
            rw [hblk] at he
            cases he
            simp [hexp])
        rw [hfalse] at hskip
        exact Bool.false_ne_true hskip
  | none =>
    cases hmiss : getMissingDataFromUpdateEntriesOrStore s u de.1.nsCollBlk with
    | none => simp [constructUpdateEntriesStep, hblk, hmiss]
    | some missingData =>
      exfalso
      have hfalse := skippedEntry_false_of_merge s u hinv de.1.nsCollBlk
        (by simp [hmiss])
        (fun e he => by rw [hblk] at he; cases he)
      rw [hfalse] at hskip
      exact Bool.false_ne_true hskip

theorem constructUpdateEntriesStep_inv (s : Store)
    (u : EntriesForPvtDataOfOldBlocks) (de : DataKey × CollectionPvtReadWriteSet)
    (hinv : updInv s u) : updInv s (constructUpdateEntriesStep s u de) := by
  by_cases hskip : skippedEntry s de.1.nsCollBlk = true
  · rw [constructUpdateEntriesStep_skip s u de hinv hskip]
    exact hinv
  · have hskipf : skippedEntry s de.1.nsCollBlk = false := by
      cases h : skippedEntry s de.1.nsCollBlk
      · rfl
      · exact absurd h hskip
    cases hblk : getExpiringBlock s.btlPolicy de.1.nsCollBlk.ns de.1.nsCollBlk.coll
        de.1.nsCollBlk.blkNum with
    | some expiringBlk =>
      cases hexp : getExpiryDataFromUpdateEntriesOrStore s u
          (⟨expiringBlk, de.1.nsCollBlk.blkNum⟩ : ExpiryKey) with
      | none =>
        have hstep : constructUpdateEntriesStep s u de = u := by
          simp [constructUpdateEntriesStep, hblk, hexp]
        rw [hstep]
        exact hinv
      | some expiryData =>
        cases hmiss : getMissingDataFromUpdateEntriesOrStore s u de.1.nsCollBlk with
        | none =>
          have hstep : constructUpdateEntriesStep s u de = u := by
            simp [constructUpdateEntriesStep, hblk, hexp, hmiss]
          rw [hstep]
          exact hinv
        | some missingData =>
          have hstep : constructUpdateEntriesStep s u de =
              (((u.addDataEntry de.1 de.2).updateAndAddExpiryEntry
                ⟨expiringBlk, de.1.nsCollBlk.blkNum⟩ expiryData de.1)
                |>.updateAndAddMissingDataEntry missingData de.1) := by
            simp [constructUpdateEntriesStep, hblk, hexp, hmiss]
          have hstexp : (alistLookup s.db.expiryEntries
              (⟨expiringBlk, de.1.nsCollBlk.blkNum⟩ : ExpiryKey)).isSome := by
            unfold getExpiryDataFromUpdateEntriesOrStore at hexp
            cases hu : alistLookup u.expiryEntries
                (⟨expiringBlk, de.1.nsCollBlk.blkNum⟩ : ExpiryKey) with
            | some ed =>
              exact hinv.1 (⟨expiringBlk, de.1.nsCollBlk.blkNum⟩ : ExpiryKey)
                (by rw [hu]; rfl)
            | none =>
              rw [hu] at hexp
              have h2 : alistLookup s.db.expiryEntries
                  (⟨expiringBlk, de.1.nsCollBlk.blkNum⟩ : ExpiryKey) =
                  some expiryData := hexp
              rw [h2]
              rfl
          rw [hstep]
          refine ⟨?_, ?_, ?_⟩
          · intro ek hek
            by_cases he : ek = (⟨expiringBlk, de.1.nsCollBlk.blkNum⟩ : ExpiryKey)
            · rw [he]; exact hstexp
            · apply hinv.1 ek
              have hsame : alistLookup
                  ((((u.addDataEntry de.1 de.2).updateAndAddExpiryEntry
                    ⟨expiringBlk, de.1.nsCollBlk.blkNum⟩ expiryData de.1)
                    |>.updateAndAddMissingDataEntry missingData de.1)).expiryEntries ek =
                  alistLookup u.expiryEntries ek := by
                show alistLookup (alistPut u.expiryEntries _ _) ek = _
                exact alistLookup_put_ne _ _ _ _ he
              rwa [hsame] at hek
          · intro ncb hncb
            by_cases hn : ncb = de.1.nsCollBlk
            · rw [hn]; exact hskipf
            · apply hinv.2.1 ncb
              have hsame : alistLookup
                  ((((u.addDataEntry de.1 de.2).updateAndAddExpiryEntry
                    ⟨expiringBlk, de.1.nsCollBlk.blkNum⟩ expiryData de.1)
                    |>.updateAndAddMissingDataEntry missingData de.1)).missingDataEntries ncb =
                  alistLookup u.missingDataEntries ncb := by
                show alistLookup (alistPut u.missingDataEntries _ _) ncb = _
                exact alistLookup_put_ne _ _ _ _ hn
              rwa [hsame] at hncb
          · intro dk hdk
            by_cases hd : dk = de.1
            · rw [hd]; exact hskipf
            · apply hinv.2.2 dk
              have hsame : alistLookup
                  ((((u.addDataEntry de.1 de.2).updateAndAddExpiryEntry
                    ⟨expiringBlk, de.1.nsCollBlk.blkNum⟩ expiryData de.1)
                    |>.updateAndAddMissingDataEntry missingData de.1)).dataEntries dk =
                  alistLookup u.dataEntries dk := by
                show alistLookup (alistPut u.dataEntries _ _) dk = _
                exact alistLookup_put_ne _ _ _ _ hd
              rwa [hsame] at hdk
    | none =>
      cases hmiss : getMissingDataFromUpdateEntriesOrStore s u de.1.nsCollBlk with
      | none =>
        have hstep : constructUpdateEntriesStep s u de = u := by
          simp [constructUpdateEntriesStep, hblk, hmiss]
        rw [hstep]
        exact hinv
      | some missingData =>
        have hstep : constructUpdateEntriesStep s u de =
            (u.addDataEntry de.1 de.2).updateAndAddMissingDataEntry missingData de.1 := by
          simp [constructUpdateEntriesStep, hblk, hmiss]
        rw [hstep]
        refine ⟨?_, ?_, ?_⟩
        · intro ek hek
          exact hinv.1 ek hek
        · intro ncb hncb
          by_cases hn : ncb = de.1.nsCollBlk
          · rw [hn]; exact hskipf
          · apply hinv.2.1 ncb
            have hsame : alistLookup
                (((u.addDataEntry de.1 de.2).updateAndAddMissingDataEntry
                  missingData de.1)).missingDataEntries ncb =
                alistLookup u.missingDataEntries ncb := by
              show alistLookup (alistPut u.missingDataEntries _ _) ncb = _
              exact alistLookup_put_ne _ _ _ _ hn
            rwa [hsame] at hncb
        · intro dk hdk
          by_cases hd : dk = de.1
          · rw [hd]; exact hskipf
          · apply hinv.2.2 dk
            have hsame : alistLookup
                (((u.addDataEntry de.1 de.2).updateAndAddMissingDataEntry
                  missingData de.1)).dataEntries dk =
                alistLookup u.dataEntries dk := by
              show alistLookup (alistPut u.dataEntries _ _) dk = _
              exact alistLookup_put_ne _ _ _ _ hd
            rwa [hsame] at hdk

theorem constructUpdateFold_inv (s : Store)
    (l : List (DataKey × CollectionPvtReadWriteSet))
    (u : EntriesForPvtDataOfOldBlocks) (hinv : updInv s u) :
    updInv s (l.foldl (constructUpdateEntriesStep s) u) := by
  induction l generalizing u with
  | nil => exact hinv
  | cons de t ih => exact ih _ (constructUpdateEntriesStep_inv s u de hinv)

theorem constructUpdate_inv (s : Store)
    (l : List (DataKey × CollectionPvtReadWriteSet)) :
    updInv s (s.constructUpdateEntriesFromDataEntries l) :=
  constructUpdateFold_inv s l _ (updInv_empty s)

theorem constructUpdateFold_filter (s : Store)
    (l : List (DataKey × CollectionPvtReadWriteSet))
    (u : EntriesForPvtDataOfOldBlocks) (hinv : updInv s u) :
    l.foldl (constructUpdateEntriesStep s) u =
      (l.filter (fun de => !skippedEntry s de.1.nsCollBlk)).foldl
        (constructUpdateEntriesStep s) u := by
  induction l generalizing u with
  | nil => rfl
  | cons de t ih =>
    by_cases hskip : skippedEntry s de.1.nsCollBlk = true
    · rw [List.foldl_cons, constructUpdateEntriesStep_skip s u de hinv hskip,
        show (de :: t).filter (fun de => !skippedEntry s de.1.nsCollBlk) =
          t.filter (fun de => !skippedEntry s de.1.nsCollBlk) from by
            simp [List.filter_cons, hskip]]
      exact ih u hinv
    · have hskipf : skippedEntry s de.1.nsCollBlk = false := by
        cases h : skippedEntry s de.1.nsCollBlk
        · rfl
        · exact absurd h hskip
      rw [List.foldl_cons,
        show (de :: t).filter (fun de => !skippedEntry s de.1.nsCollBlk) =
          de :: t.filter (fun de => !skippedEntry s de.1.nsCollBlk) from by
            simp [List.filter_cons, hskipf],
        List.foldl_cons]
      exact ih _ (constructUpdateEntriesStep_inv s u de hinv)

/-- Claim C10: during `CommitPvtDataOfOldBlocks`, a supplied data entry
whose (shared) expiry entry is absent from the store — for an expiring
collection — or whose eligible missing-data bitmap is absent, is skipped
entirely: the update entries equal those computed from the input with the
skipped entries filtered out, no data entry and no missing-data update
exists for a skipped `nsCollBlk`, no expiry entry is produced for any
expiry key the store lacks, and the operation reports no error for it. -/
theorem c10_skipped_entries_dropped (s : Store)
    (l : List (DataKey × CollectionPvtReadWriteSet)) :
    s.constructUpdateEntriesFromDataEntries l =
      s.constructUpdateEntriesFromDataEntries
        (l.filter (fun de => !skippedEntry s de.1.nsCollBlk)) ∧
    (∀ dk : DataKey, skippedEntry s dk.nsCollBlk = true →
      alistLookup (s.constructUpdateEntriesFromDataEntries l).dataEntries dk = none ∧
      alistLookup (s.constructUpdateEntriesFromDataEntries l).missingDataEntries
        dk.nsCollBlk = none) ∧
    (∀ ek : ExpiryKey, alistLookup s.db.expiryEntries ek = none →
      alistLookup (s.constructUpdateEntriesFromDataEntries l).expiryEntries ek = none) ∧
    (∀ blocksPvtData : List (Nat × List TxPvtData),
      s.isLastUpdatedOldBlocksSet = false →
      (s.CommitPvtDataOfOldBlocks blocksPvtData).1 = none) := by
  have hinv := constructUpdate_inv s l
  refine ⟨?_, ?_, ?_, ?_⟩
  · exact constructUpdateFold_filter s l _ (updInv_empty s)
  · intro dk hskip
    constructor
    · cases hl : alistLookup (s.constructUpdateEntriesFromDataEntries l).dataEntries dk with
      | none => rfl
      | some v =>
        have := hinv.2.2 dk (by simp [hl])
        rw [this] at hskip
        exact absurd hskip (Bool.false_ne_true)
    · cases hl : alistLookup (s.constructUpdateEntriesFromDataEntries l).missingDataEntries
          dk.nsCollBlk with
      | none => rfl
      | some v =>
        have := hinv.2.1 dk.nsCollBlk (by simp [hl])
        rw [this] at hskip
        exact absurd hskip (Bool.false_ne_true)
  · intro ek hst
    cases hl : alistLookup (s.constructUpdateEntriesFromDataEntries l).expiryEntries ek with
    | none => rfl
    | some v =>
      have := hinv.1 ek (by simp [hl])
      rw [hst] at this
      simp at this
  · intro blocksPvtData hflag
    unfold Store.CommitPvtDataOfOldBlocks
    simp [hflag]

/-- Witness for C10: a concrete data entry of a never-expiring collection
whose eligible bitmap is absent from the witness store is skipped, leaving
no trace in the update entries. -/
theorem c10_skipped_entries_dropped_witness :
    skippedEntry storeW (⟨"nsX", "collX", 0⟩ : NsCollBlk) = true ∧
    alistLookup (storeW.constructUpdateEntriesFromDataEntries
      [(⟨⟨"nsX", "collX", 0⟩, 1⟩, ⟨"collX", [7]⟩)]).dataEntries
      ⟨⟨"nsX", "collX", 0⟩, 1⟩ = none ∧
    alistLookup (storeW.constructUpdateEntriesFromDataEntries
      [(⟨⟨"nsX", "collX", 0⟩, 1⟩, ⟨"collX", [7]⟩)]).missingDataEntries
      ⟨"nsX", "collX", 0⟩ = none :=
  ⟨by decide,
    ((c10_skipped_entries_dropped storeW
      [(⟨⟨"nsX", "collX", 0⟩, 1⟩, ⟨"collX", [7]⟩)]).2.1
      ⟨⟨"nsX", "collX", 0⟩, 1⟩ (by decide)).1,
    ((c10_skipped_entries_dropped storeW
      [(⟨⟨"nsX", "collX", 0⟩, 1⟩, ⟨"collX", [7]⟩)]).2.1
      ⟨⟨"nsX", "collX", 0⟩, 1⟩ (by decide)).2⟩

/-! ## Bitmap lemmas and claim C7 -/

theorem not_mem_bmClear_self (b : Bitmap) (i : Nat) : i ∉ bmClear b i := by
  intro h
  have := (List.mem_filter.mp h).2
  simp at this

theorem not_mem_bmClear_of_not_mem (b : Bitmap) (i j : Nat) (h : j ∉ b) :
    j ∉ bmClear b i := fun hm => h (List.mem_filter.mp hm).1

theorem clearedInv_empty : clearedInv ⟨[], [], []⟩ := by
  refine ⟨List.nodup_nil, ?_⟩
  intro dk h
  simp [alistLookup] at h

theorem constructUpdateEntriesStep_clearedInv (s : Store)
    (u : EntriesForPvtDataOfOldBlocks) (de : DataKey × CollectionPvtReadWriteSet)
    (hinv : clearedInv u) : clearedInv (constructUpdateEntriesStep s u de) := by
  have hmain : ∀ missingData : Bitmap,
      getMissingDataFromUpdateEntriesOrStore s u de.1.nsCollBlk = some missingData →
      ∀ u' : EntriesForPvtDataOfOldBlocks,
      u'.dataEntries = alistPut u.dataEntries de.1 de.2 →
      u'.missingDataEntries =
        alistPut u.missingDataEntries de.1.nsCollBlk (bmClear missingData de.1.txNum) →
      clearedInv u' := by
    intro missingData hmiss u' hdata hmissing
    refine ⟨?_, ?_⟩
    · rw [hmissing]
      exact alistPut_keys_nodup _ _ _ hinv.1
    · intro dk hdk
      by_cases hd : dk = de.1
      · refine ⟨bmClear missingData de.1.txNum, ?_, ?_⟩
        · rw [hmissing, hd]
          exact alistLookup_put_self _ _ _
        · rw [hd]
          exact not_mem_bmClear_self _ _
      · rw [hdata, alistLookup_put_ne _ _ _ _ hd] at hdk
        obtain ⟨bm0, hlook, hnot⟩ := hinv.2 dk hdk
        by_cases hn : dk.nsCollBlk = de.1.nsCollBlk
        · have hsame : missingData = bm0 := by
            unfold getMissingDataFromUpdateEntriesOrStore at hmiss
            rw [← hn, hlook] at hmiss
            exact (Option.some.inj hmiss).symm
          refine ⟨bmClear missingData de.1.txNum, ?_, ?_⟩
          · rw [hmissing, hn]
            exact alistLookup_put_self _ _ _
          · rw [hsame]
            exact not_mem_bmClear_of_not_mem _ _ _ hnot
        · refine ⟨bm0, ?_, hnot⟩
          rw [hmissing, alistLookup_put_ne _ _ _ _ hn]
          exact hlook
  cases hblk : getExpiringBlock s.btlPolicy de.1.nsCollBlk.ns de.1.nsCollBlk.coll
      de.1.nsCollBlk.blkNum with
  | some expiringBlk =>
    cases hexp : getExpiryDataFromUpdateEntriesOrStore s u
        (⟨expiringBlk, de.1.nsCollBlk.blkNum⟩ : ExpiryKey) with
    | none =>
      have hstep : constructUpdateEntriesStep s u de = u := by
        simp [constructUpdateEntriesStep, hblk, hexp]
      rw [hstep]
      exact hinv
    | some expiryData =>
      cases hmiss : getMissingDataFromUpdateEntriesOrStore s u de.1.nsCollBlk with
      | none =>
        have hstep : constructUpdateEntriesStep s u de = u := by
          simp [constructUpdateEntriesStep, hblk, hexp, hmiss]
        rw [hstep]
        exact hinv
      | some missingData =>
        have hstep : constructUpdateEntriesStep s u de =
            (((u.addDataEntry de.1 de.2).updateAndAddExpiryEntry
              ⟨expiringBlk, de.1.nsCollBlk.blkNum⟩ expiryData de.1)
              |>.updateAndAddMissingDataEntry missingData de.1) := by
          simp [constructUpdateEntriesStep, hblk, hexp, hmiss]
        rw [hstep]
        exact hmain missingData hmiss _ rfl rfl
  | none =>
    cases hmiss : getMissingDataFromUpdateEntriesOrStore s u de.1.nsCollBlk with
    | none =>
      have hstep : constructUpdateEntriesStep s u de = u := by
        simp [constructUpdateEntriesStep, hblk, hmiss]
      rw [hstep]
      exact hinv
    | some missingData =>
      have hstep : constructUpdateEntriesStep s u de =
          (u.addDataEntry de.1 de.2).updateAndAddMissingDataEntry missingData de.1 := by
        simp [constructUpdateEntriesStep, hblk, hmiss]
      rw [hstep]
      exact hmain missingData hmiss _ rfl rfl

theorem constructUpdate_clearedInv (s : Store)
    (l : List (DataKey × CollectionPvtReadWriteSet)) :
    clearedInv (s.constructUpdateEntriesFromDataEntries l) := by
  show clearedInv (l.foldl (constructUpdateEntriesStep s) ⟨[], [], []⟩)
  generalize hu : (⟨[], [], []⟩ : EntriesForPvtDataOfOldBlocks) = u
  have hinv : clearedInv u := hu ▸ clearedInv_empty
  clear hu
  induction l generalizing u with
  | nil => exact hinv
  | cons de t ih => exact ih _ (constructUpdateEntriesStep_clearedInv s u de hinv)

theorem missingUpdFold_lookup_other (t : List (NsCollBlk × Bitmap)) (db : StoreDB)
    (k : MissingDataKey) (h : ∀ p ∈ t, (⟨p.1, true⟩ : MissingDataKey) ≠ k) :
    alistLookup
      (t.foldl
        (fun db e =>
          if bmNone e.2 then
            { db with missingDataEntries :=
                alistRemove db.missingDataEntries (⟨e.1, true⟩ : MissingDataKey) }
          else
            { db with missingDataEntries :=
                alistPut db.missingDataEntries (⟨e.1, true⟩ : MissingDataKey) e.2 })
        db).missingDataEntries k = alistLookup db.missingDataEntries k := by
  induction t generalizing db with
  | nil => rfl
  | cons e t ih =>
    rw [List.foldl_cons, ih _ (fun p hp => h p (List.mem_cons_of_mem _ hp))]
    have hne : k ≠ (⟨e.1, true⟩ : MissingDataKey) :=
      fun hk => h e (List.mem_cons_self _ _) hk.symm
    by_cases hb : bmNone e.2
    · rw [if_pos hb]
      exact alistLookup_remove_ne _ _ _ hne
    · rw [if_neg hb]
      exact alistLookup_put_ne _ _ _ _ hne

theorem missingUpdFold_lookup (m : List (NsCollBlk × Bitmap)) (db : StoreDB)
    (hnodup : (m.map Prod.fst).Nodup) (ncb : NsCollBlk) (bm : Bitmap)
    (hm : alistLookup m ncb = some bm) :
    alistLookup
      (m.foldl
        (fun db e =>
          if bmNone e.2 then
            { db with missingDataEntries :=
                alistRemove db.missingDataEntries (⟨e.1, true⟩ : MissingDataKey) }
          else
            { db with missingDataEntries :=
                alistPut db.missingDataEntries (⟨e.1, true⟩ : MissingDataKey) e.2 })
        db).missingDataEntries (⟨ncb, true⟩ : MissingDataKey) =
      (if bmNone bm then none else some bm) := by
  induction m generalizing db with
  | nil => simp [alistLookup] at hm
  | cons e t ih =>
    rw [alistLookup_cons] at hm
    by_cases he : e.1 = ncb
    · rw [if_pos he] at hm
      have hbm : bm = e.2 := (Option.some.inj hm).symm
      have hother : ∀ p ∈ t, (⟨p.1, true⟩ : MissingDataKey) ≠ ⟨ncb, true⟩ := by
        intro p hp hk
        have hp1 : p.1 = ncb := congrArg MissingDataKey.nsCollBlk hk
        have : e.1 ∈ t.map Prod.fst := by
          rw [he, ← hp1]
          exact List.mem_map.mpr ⟨p, hp, rfl⟩
        exact (List.nodup_cons.mp hnodup).1 this
      rw [List.foldl_cons, missingUpdFold_lookup_other t _ _ hother]
      by_cases hb : bmNone e.2
      · rw [if_pos hb]
        have hb2 : bmNone bm = true := hbm ▸ hb
        rw [if_pos hb2]
        show alistLookup (alistRemove db.missingDataEntries _) _ = none
        rw [he]
        exact alistLookup_remove_self _ _
      · rw [if_neg hb]
        have hb2 : ¬bmNone bm = true := by rw [hbm]; exact hb
        rw [if_neg hb2, hbm]
        show alistLookup (alistPut db.missingDataEntries _ _) _ = some e.2
        rw [he]
        exact alistLookup_put_self _ _ _
    · rw [if_neg he] at hm
      rw [List.foldl_cons]
      exact ih _ (List.nodup_cons.mp hnodup).2 hm

/-- Claim C7: for every valid data entry merged by
`CommitPvtDataOfOldBlocks`, the bit at its transaction number in the
eligible missing-data bitmap of its `(ns, coll, blkNum)` is cleared, and in
the committed database the missing-data entry is deleted exactly when the
resulting bitmap has no set bits and is rewritten with the updated bitmap
otherwise. -/
theorem c7_missing_bitmap_cleared (s : Store)
    (blocksPvtData : List (Nat × List TxPvtData))
    (hflag : s.isLastUpdatedOldBlocksSet = false) :
    (s.CommitPvtDataOfOldBlocks blocksPvtData).1 = none ∧
    ∀ dk : DataKey,
      (alistLookup (updateEntriesOf s blocksPvtData).dataEntries dk).isSome →
      ∃ bm, alistLookup (updateEntriesOf s blocksPvtData).missingDataEntries
          dk.nsCollBlk = some bm ∧
        dk.txNum ∉ bm ∧
        alistLookup
          (s.CommitPvtDataOfOldBlocks blocksPvtData).2.db.missingDataEntries
          (⟨dk.nsCollBlk, true⟩ : MissingDataKey) =
          (if bmNone bm then none else some bm) := by
  have hres : s.CommitPvtDataOfOldBlocks blocksPvtData =
      (none, { s with db := applyUpdateEntries s.db (updateEntriesOf s blocksPvtData) }) := by
    unfold Store.CommitPvtDataOfOldBlocks
    simp [hflag]
    rfl
  constructor
  · rw [hres]
  · intro dk hdk
    have hinv := constructUpdate_clearedInv s
      (constructDataEntriesFromBlocksPvtData blocksPvtData)
    obtain ⟨bm, hlook, hnot⟩ := hinv.2 dk hdk
    refine ⟨bm, hlook, hnot, ?_⟩
    rw [hres]
    show alistLookup (applyUpdateEntries s.db (updateEntriesOf s blocksPvtData)).missingDataEntries _ = _
    unfold applyUpdateEntries
    exact missingUpdFold_lookup _ _ hinv.1 dk.nsCollBlk bm hlook

/-- Witness for C7: merging the concrete missing transaction 5 of
`(nsW, collW, 0)` into the witness store clears its bit, empties the
bitmap, and deletes the eligible missing-data entry from the committed
database. -/
theorem c7_missing_bitmap_cleared_witness :
    storeW.isLastUpdatedOldBlocksSet = false ∧
    (alistLookup (updateEntriesOf storeW
      [(0, [⟨5, ⟨[⟨"nsW", [⟨"collW", [9]⟩]⟩]⟩⟩])]).dataEntries
      ⟨⟨"nsW", "collW", 0⟩, 5⟩).isSome ∧
    ∃ bm, alistLookup (updateEntriesOf storeW
        [(0, [⟨5, ⟨[⟨"nsW", [⟨"collW", [9]⟩]⟩]⟩⟩])]).missingDataEntries
        (⟨"nsW", "collW", 0⟩ : NsCollBlk) = some bm ∧
      (5 : Nat) ∉ bm ∧
      alistLookup
        (storeW.CommitPvtDataOfOldBlocks
          [(0, [⟨5, ⟨[⟨"nsW", [⟨"collW", [9]⟩]⟩]⟩⟩])]).2.db.missingDataEntries
        (⟨⟨"nsW", "collW", 0⟩, true⟩ : MissingDataKey) =
        (if bmNone bm then none else some bm) :=
  ⟨rfl, by decide,
    (c7_missing_bitmap_cleared storeW
      [(0, [⟨5, ⟨[⟨"nsW", [⟨"collW", [9]⟩]⟩]⟩⟩])] rfl).2
      ⟨⟨"nsW", "collW", 0⟩, 5⟩ (by decide)⟩

/-! ## Read-path lemmas and claim C2 -/

theorem nsListContains_addToNsList (e : String × CollectionPvtReadWriteSet)
    (acc : List NsPvtReadWriteSet) (ns coll : String) :
    nsListContains (addToNsList e acc) ns coll =
      (nsListContains acc ns coll ||
        (decide (e.1 = ns) && decide (e.2.collectionName = coll))) := by
  induction acc with
  | nil =>
    simp [addToNsList, nsListContains, List.any_cons]
  | cons n rest ih =>
    by_cases hn : n.ns = e.1
    · simp only [addToNsList, if_pos hn, nsListContains, List.any_cons] at *
      rw [List.any_append]
      simp [hn]
      by_cases h1 : e.1 = ns <;> by_cases h2 : e.2.collectionName = coll <;>
        simp [h1, h2] <;> first
          | rw [← Bool.or_assoc]
          | skip
    · simp only [addToNsList, if_neg hn, nsListContains, List.any_cons] at *
      rw [ih]
      by_cases h1 : n.ns = ns <;> simp [h1] <;> first
        | rw [← Bool.or_assoc]
        | skip

theorem nsListContains_groupFold (l : List (String × CollectionPvtReadWriteSet))
    (acc : List NsPvtReadWriteSet) (ns coll : String) :
    nsListContains (l.foldl (fun acc e => addToNsList e acc) acc) ns coll =
      (nsListContains acc ns coll || entriesContains l ns coll) := by
  induction l generalizing acc with
  | nil => simp [entriesContains]
  | cons e t ih =>
    rw [List.foldl_cons, ih]
    rw [nsListContains_addToNsList]
    simp [entriesContains, List.any_cons]
    rw [Bool.or_assoc]

theorem wsContains_getTxPvtdata (a : TxPvtdataAssembler) (ns coll : String) :
    wsContainsNsColl a.getTxPvtdata.writeSet ns coll =
      entriesContains a.entries ns coll := by
  show nsListContains (groupByNs a.entries) ns coll = _
  rw [groupByNs, nsListContains_groupFold]
  simp [nsListContains]

theorem entriesContains_append_single
    (l : List (String × CollectionPvtReadWriteSet))
    (e : String × CollectionPvtReadWriteSet) (ns coll : String) :
    entriesContains (l ++ [e]) ns coll =
      (entriesContains l ns coll ||
        (decide (e.1 = ns) && decide (e.2.collectionName = coll))) := by
  simp [entriesContains, List.any_append, List.any_cons]

theorem pvtScanLoop_cons (pol : BTLPolicy) (last : Nat)
    (filter : PvtNsCollFilter) (blockNum : Nat) (dk : DataKey)
    (v : CollectionPvtReadWriteSet)
    (rest : List (DataKey × CollectionPvtReadWriteSet))
    (cur : Option TxPvtdataAssembler) (out : List TxPvtData) :
    pvtScanLoop pol last filter blockNum ((dk, v) :: rest) cur out =
      if isExpired dk.nsCollBlk pol last || !passesFilter dk filter then
        pvtScanLoop pol last filter blockNum rest cur out
      else
        match cur with
        | none =>
          pvtScanLoop pol last filter blockNum rest
            (some (TxPvtdataAssembler.add ⟨blockNum, dk.txNum, []⟩ dk.nsCollBlk.ns v))
            out
        | some a =>
          if dk.txNum ≠ a.txNum then
            pvtScanLoop pol last filter blockNum rest
              (some (TxPvtdataAssembler.add ⟨blockNum, dk.txNum, []⟩ dk.nsCollBlk.ns v))
              (out ++ [a.getTxPvtdata])
          else
            pvtScanLoop pol last filter blockNum rest
              (some (a.add dk.nsCollBlk.ns v)) out := by
  rw [pvtScanLoop.eq_def]

theorem pvtScanLoop_not_contains (pol : BTLPolicy) (last : Nat)
    (filter : PvtNsCollFilter) (blockNum : Nat) (ns coll : String)
    (l : List (DataKey × CollectionPvtReadWriteSet))
    (hl : ∀ p ∈ l, p.1.nsCollBlk.ns = ns → p.2.collectionName = coll →
      isExpired p.1.nsCollBlk pol last = true)
    (cur : Option TxPvtdataAssembler)
    (hcur : ∀ a, cur = some a → entriesContains a.entries ns coll = false)
    (out : List TxPvtData)
    (hout : ∀ tx ∈ out, wsContainsNsColl tx.writeSet ns coll = false) :
    ∀ tx ∈ pvtScanLoop pol last filter blockNum l cur out,
      wsContainsNsColl tx.writeSet ns coll = false := by
  induction l generalizing cur out with
  | nil =>
    intro tx htx
    cases cur with
    | none => exact hout tx htx
    | some a =>
      rcases List.mem_append.mp htx with h | h
      · exact hout tx h
      · have : tx = a.getTxPvtdata := List.mem_singleton.mp h
        rw [this, wsContains_getTxPvtdata]
        exact hcur a rfl
  | cons p rest ih =>
    obtain ⟨dk, v⟩ := p
    intro tx htx
    by_cases hskip : (isExpired dk.nsCollBlk pol last || !passesFilter dk filter) = true
    · rw [show pvtScanLoop pol last filter blockNum ((dk, v) :: rest) cur out =
          pvtScanLoop pol last filter blockNum rest cur out from by
        rw [pvtScanLoop_cons]
        simp [hskip]] at htx
      exact ih (fun q hq => hl q (List.mem_cons_of_mem _ hq)) cur hcur out hout tx htx
    · have hnexp : isExpired dk.nsCollBlk pol last = false := by
        rcases Bool.or_eq_false_iff.mp (Bool.not_eq_true _ |>.mp hskip) with ⟨h1, _⟩
        exact h1
      have hpred : (decide (dk.nsCollBlk.ns = ns) &&
          decide (v.collectionName = coll)) = false := by
        by_cases h1 : dk.nsCollBlk.ns = ns
        · by_cases h2 : v.collectionName = coll
          · have := hl (dk, v) (List.mem_cons_self _ _) h1 h2
            rw [this] at hnexp
            exact absurd hnexp (by simp)
          · simp [h2]
        · simp [h1]
      have htail : ∀ q ∈ rest, q.1.nsCollBlk.ns = ns → q.2.collectionName = coll →
          isExpired q.1.nsCollBlk pol last = true :=
        fun q hq => hl q (List.mem_cons_of_mem _ hq)
      cases cur with
      | none =>
        rw [show pvtScanLoop pol last filter blockNum ((dk, v) :: rest) none out =
            pvtScanLoop pol last filter blockNum rest
              (some (TxPvtdataAssembler.add ⟨blockNum, dk.txNum, []⟩ dk.nsCollBlk.ns v))
              out from by
          rw [pvtScanLoop_cons]
          simp [hskip]] at htx
        refine ih htail _ ?_ out hout tx htx
        intro a ha
        cases Option.some.inj ha
        show entriesContains ([] ++ [(dk.nsCollBlk.ns, v)]) ns coll = false
        rw [entriesContains_append_single]
        simpa [entriesContains] using hpred
      | some a =>
        by_cases htx2 : dk.txNum ≠ a.txNum
        · rw [show pvtScanLoop pol last filter blockNum ((dk, v) :: rest) (some a) out =
              pvtScanLoop pol last filter blockNum rest
                (some (TxPvtdataAssembler.add ⟨blockNum, dk.txNum, []⟩ dk.nsCollBlk.ns v))
                (out ++ [a.getTxPvtdata]) from by
            rw [pvtScanLoop_cons]
            simp [hskip, htx2]] at htx
          refine ih htail _ ?_ _ ?_ tx htx
          · intro a2 ha2
            cases Option.some.inj ha2
            show entriesContains ([] ++ [(dk.nsCollBlk.ns, v)]) ns coll = false
            rw [entriesContains_append_single]
            simpa [entriesContains] using hpred
          · intro tx2 htx3
            rcases List.mem_append.mp htx3 with h | h
            · exact hout tx2 h
            · have : tx2 = a.getTxPvtdata := List.mem_singleton.mp h
              rw [this, wsContains_getTxPvtdata]
              exact hcur a rfl
        · rw [show pvtScanLoop pol last filter blockNum ((dk, v) :: rest) (some a) out =
              pvtScanLoop pol last filter blockNum rest
                (some (a.add dk.nsCollBlk.ns v)) out from by
            rw [pvtScanLoop_cons]
            simp [hskip, htx2]] at htx
          refine ih htail _ ?_ out hout tx htx
          intro a2 ha2
          cases Option.some.inj ha2
          show entriesContains (a.entries ++ [(dk.nsCollBlk.ns, v)]) ns coll = false
          rw [entriesContains_append_single, hcur a rfl, hpred]
          rfl

/-- Claim C2: for a collection `(ns, coll)` with BTL `k > 0`, data
committed at block height `h` is no longer returned by
`GetPvtDataByBlockNum` once the last committed height is at least
`h + k + 1`: the read path evaluates expiry against the current last
committed block and skips expired entries, independent of any purge
sweep. -/
theorem c2_expired_data_unreachable (s : Store) (ns coll : String) (k h : Nat)
    (filter : PvtNsCollFilter) (l : List TxPvtData)
    (hwf : dbDataWellFormed s.db)
    (hbtl : s.btlPolicy ns coll = k) (hk : 0 < k)
    (hlast : h + k + 1 ≤ s.lastCommittedBlock)
    (hres : s.GetPvtDataByBlockNum h filter = Except.ok l) :
    ∀ tx ∈ l, wsContainsNsColl tx.writeSet ns coll = false := by
  unfold Store.GetPvtDataByBlockNum at hres
  by_cases he : s.isEmpty
  · rw [if_pos he] at hres
    cases hres
  · rw [if_neg he] at hres
    by_cases hb : h > s.lastCommittedBlock
    · rw [if_pos hb] at hres
      cases hres
    · rw [if_neg hb] at hres
      have hscan := Except.ok.inj hres
      rw [← hscan]
      apply pvtScanLoop_not_contains
      · intro p hp hns hcoll
        have hpmem := List.mem_filter.mp hp
        have hblk : p.1.nsCollBlk.blkNum = h := by simpa using hpmem.2
        have hcoll2 : p.1.nsCollBlk.coll = coll := (hwf p hpmem.1).symm.trans hcoll
        unfold isExpired getExpiringBlock
        rw [hns, hcoll2, hblk, hbtl, if_neg (Nat.pos_iff_ne_zero.mp hk)]
        simpa using hlast
      · intro a ha
        simp at ha
      · intro tx htx
        cases htx

/-- Witness for C2: in the witness store (BTL 2, last committed block 4),
the block-0 data of `(nsW, collW)` is expired and the read returns an
empty result, so the collection is not contained in any returned
transaction. -/
theorem c2_expired_data_unreachable_witness :
    dbDataWellFormed storeW.db ∧
    storeW.btlPolicy "nsW" "collW" = 2 ∧
    (0 : Nat) < 2 ∧
    0 + 2 + 1 ≤ storeW.lastCommittedBlock ∧
    storeW.GetPvtDataByBlockNum 0 none = Except.ok [] ∧
    ∀ tx ∈ ([] : List TxPvtData),
      wsContainsNsColl tx.writeSet "nsW" "collW" = false :=
  ⟨by unfold dbDataWellFormed; decide, rfl, by decide, by decide, rfl,
    c2_expired_data_unreachable storeW "nsW" "collW" 2 0 none []
      (by unfold dbDataWellFormed; decide) rfl (by decide) (by decide) rfl⟩

/-! ## Never-expiring collection lemmas and claim C6 -/

theorem mentions_addPresentData (ed : ExpiryData) (ns coll nsA collA : String)
    (txNum : Nat) :
    ExpiryData.mentions (ed.addPresentData nsA collA txNum) ns coll =
      (ExpiryData.mentions ed ns coll ||
        (decide (nsA = ns) && decide (collA = coll))) := by
  simp [ExpiryData.mentions, ExpiryData.addPresentData, List.any_append]
  by_cases h1 : nsA = ns <;> by_cases h2 : collA = coll <;>
    simp [h1, h2] <;> first
      | rw [Bool.or_comm, ← Bool.or_assoc]
      | skip

theorem mentions_addMissingData (ed : ExpiryData) (ns coll nsA collA : String) :
    ExpiryData.mentions (ed.addMissingData nsA collA) ns coll =
      (ExpiryData.mentions ed ns coll ||
        (decide (nsA = ns) && decide (collA = coll))) := by
  simp [ExpiryData.mentions, ExpiryData.addMissingData, List.any_append]
  by_cases h1 : nsA = ns <;> by_cases h2 : collA = coll <;>
    simp [h1, h2] <;> first
      | rw [Bool.or_assoc]
      | skip

theorem getExpiringBlock_ne_pair (pol : BTLPolicy) (ns coll nsA collA : String)
    (blk e : Nat) (hbtl : pol ns coll = 0)
    (hsome : getExpiringBlock pol nsA collA blk = some e) :
    (decide (nsA = ns) && decide (collA = coll)) = false := by
  by_cases h1 : nsA = ns
  · by_cases h2 : collA = coll
    · exfalso
      rw [h1, h2] at hsome
      unfold getExpiringBlock at hsome
      rw [if_pos hbtl] at hsome
      cases hsome
    · simp [h2]
  · simp [h1]

theorem presentFold_mentions_free (pol : BTLPolicy) (ns coll : String)
    (hbtl : pol ns coll = 0) (d : List (DataKey × CollectionPvtReadWriteSet))
    (acc : List (ExpiryKey × ExpiryData))
    (hacc : ∀ p ∈ acc, ExpiryData.mentions p.2 ns coll = false) :
    ∀ p ∈ d.foldl
      (fun acc de =>
        match getExpiringBlock pol de.1.nsCollBlk.ns de.1.nsCollBlk.coll
            de.1.nsCollBlk.blkNum with
        | none => acc
        | some expiringBlk =>
          alistPut acc ⟨expiringBlk, de.1.nsCollBlk.blkNum⟩
            (((alistLookup acc ⟨expiringBlk, de.1.nsCollBlk.blkNum⟩).getD
              ⟨[], []⟩).addPresentData de.1.nsCollBlk.ns de.1.nsCollBlk.coll
              de.1.txNum))
      acc, ExpiryData.mentions p.2 ns coll = false := by
  induction d generalizing acc with
  | nil => exact hacc
  | cons de t ih =>
    rw [List.foldl_cons]
    cases hblk : getExpiringBlock pol de.1.nsCollBlk.ns de.1.nsCollBlk.coll
        de.1.nsCollBlk.blkNum with
    | none => exact ih acc hacc
    | some expiringBlk =>
      apply ih
      intro p hp
      have hp0 : p ∈ alistPut acc
          (⟨expiringBlk, de.1.nsCollBlk.blkNum⟩ : ExpiryKey)
          (((alistLookup acc
            (⟨expiringBlk, de.1.nsCollBlk.blkNum⟩ : ExpiryKey)).getD
            ⟨[], []⟩).addPresentData de.1.nsCollBlk.ns de.1.nsCollBlk.coll
            de.1.txNum) := hp
      rcases mem_alistPut _ _ _ _ hp0 with hp | hp
      · rw [hp]
        show ExpiryData.mentions (ExpiryData.addPresentData _ _ _ _) ns coll = false
        rw [mentions_addPresentData,
          getExpiringBlock_ne_pair pol ns coll _ _ _ _ hbtl hblk, Bool.or_false]
        cases hlook : alistLookup acc
            (⟨expiringBlk, de.1.nsCollBlk.blkNum⟩ : ExpiryKey) with
        | none => rfl
        | some ed => exact hacc _ (alistLookup_mem _ _ _ hlook)
      · exact hacc p hp.1

theorem missingFold_mentions_free (pol : BTLPolicy) (ns coll : String)
    (hbtl : pol ns coll = 0) (m : List (MissingDataKey × Bitmap))
    (acc : List (ExpiryKey × ExpiryData))
    (hacc : ∀ p ∈ acc, ExpiryData.mentions p.2 ns coll = false) :
    ∀ p ∈ m.foldl
      (fun acc me =>
        match getExpiringBlock pol me.1.nsCollBlk.ns me.1.nsCollBlk.coll
            me.1.nsCollBlk.blkNum with
        | none => acc
        | some expiringBlk =>
          alistPut acc ⟨expiringBlk, me.1.nsCollBlk.blkNum⟩
            (((alistLookup acc ⟨expiringBlk, me.1.nsCollBlk.blkNum⟩).getD
              ⟨[], []⟩).addMissingData me.1.nsCollBlk.ns me.1.nsCollBlk.coll))
      acc, ExpiryData.mentions p.2 ns coll = false := by
  induction m generalizing acc with
  | nil => exact hacc
  | cons me t ih =>
    rw [List.foldl_cons]
    cases hblk : getExpiringBlock pol me.1.nsCollBlk.ns me.1.nsCollBlk.coll
        me.1.nsCollBlk.blkNum with
    | none => exact ih acc hacc
    | some expiringBlk =>
      apply ih
      intro p hp
      have hp0 : p ∈ alistPut acc
          (⟨expiringBlk, me.1.nsCollBlk.blkNum⟩ : ExpiryKey)
          (((alistLookup acc
            (⟨expiringBlk, me.1.nsCollBlk.blkNum⟩ : ExpiryKey)).getD
            ⟨[], []⟩).addMissingData me.1.nsCollBlk.ns me.1.nsCollBlk.coll) := hp
      rcases mem_alistPut _ _ _ _ hp0 with hp | hp
      · rw [hp]
        show ExpiryData.mentions (ExpiryData.addMissingData _ _ _) ns coll = false
        rw [mentions_addMissingData,
          getExpiringBlock_ne_pair pol ns coll _ _ _ _ hbtl hblk, Bool.or_false]
        cases hlook : alistLookup acc
            (⟨expiringBlk, me.1.nsCollBlk.blkNum⟩ : ExpiryKey) with
        | none => rfl
        | some ed => exact hacc _ (alistLookup_mem _ _ _ hlook)
      · exact hacc p hp.1

theorem prepareExpiryEntries_mentions_free (pol : BTLPolicy) (ns coll : String)
    (hbtl : pol ns coll = 0) (blk : Nat)
    (d : List (DataKey × CollectionPvtReadWriteSet))
    (m : List (MissingDataKey × Bitmap)) :
    ∀ p ∈ prepareExpiryEntries blk d m pol,
      ExpiryData.mentions p.2 ns coll = false := by
  apply missingFold_mentions_free pol ns coll hbtl
  apply presentFold_mentions_free pol ns coll hbtl
  intro p hp
  cases hp

theorem mem_putExpiryEntries (l : List (ExpiryKey × ExpiryData)) (db : StoreDB)
    (p : ExpiryKey × ExpiryData) (h : p ∈ (putExpiryEntries db l).expiryEntries) :
    p ∈ db.expiryEntries ∨ p ∈ l := by
  induction l generalizing db with
  | nil => exact Or.inl h
  | cons e t ih =>
    have hstep := ih { db with expiryEntries := alistPut db.expiryEntries e.1 e.2 }
      (by simpa [putExpiryEntries, List.foldl] using h)
    rcases hstep with hstep | hstep
    · rcases mem_alistPut _ _ _ _ hstep with hp | hp
      · right
        rw [hp]
        exact List.mem_cons_self _ _
      · exact Or.inl hp.1
    · exact Or.inr (List.mem_cons_of_mem _ hstep)

theorem commit_noExpiryRef (s : Store) (ns coll : String)
    (hbtl : s.btlPolicy ns coll = 0) (blockNum : Nat)
    (pvtData : List TxPvtData) (missingPvtData : TxMissingPvtDataMap)
    (h : noExpiryRef s.db ns coll) :
    noExpiryRef (s.Commit blockNum pvtData missingPvtData).2.db ns coll := by
  unfold Store.Commit
  by_cases hb : s.nextBlockNum ≠ blockNum
  · rw [if_pos hb]
    exact h
  · rw [if_neg hb]
    intro p hp
    show ExpiryData.mentions p.2 ns coll = false
    have hp2 : p ∈ (putExpiryEntries
        (putDataEntries s.db (prepareStoreEntries blockNum pvtData s.btlPolicy
          missingPvtData).dataEntries)
        (prepareStoreEntries blockNum pvtData s.btlPolicy
          missingPvtData).expiryEntries).expiryEntries := by
      have hmiss := putMissingDataEntries_expiryEntries
        (prepareStoreEntries blockNum pvtData s.btlPolicy missingPvtData).missingDataEntries
        (putExpiryEntries
          (putDataEntries s.db (prepareStoreEntries blockNum pvtData s.btlPolicy
            missingPvtData).dataEntries)
          (prepareStoreEntries blockNum pvtData s.btlPolicy
            missingPvtData).expiryEntries)
      simpa [hmiss] using hp
    rcases mem_putExpiryEntries _ _ _ hp2 with hp3 | hp3
    · rw [putDataEntries_expiryEntries] at hp3
      exact h p hp3
    · have hp4 : p ∈ prepareExpiryEntries blockNum
          (prepareDataEntries blockNum pvtData)
          (prepareMissingDataEntries blockNum missingPvtData) s.btlPolicy := hp3
      exact prepareExpiryEntries_mentions_free s.btlPolicy ns coll hbtl blockNum
        _ _ p hp4

theorem constructUpdate_mentions_free (s : Store) (ns coll : String)
    (hbtl : s.btlPolicy ns coll = 0) (h : noExpiryRef s.db ns coll)
    (l : List (DataKey × CollectionPvtReadWriteSet))
    (u : EntriesForPvtDataOfOldBlocks)
    (hu : ∀ p ∈ u.expiryEntries, ExpiryData.mentions p.2 ns coll = false) :
    ∀ p ∈ (l.foldl (constructUpdateEntriesStep s) u).expiryEntries,
      ExpiryData.mentions p.2 ns coll = false := by
  induction l generalizing u with
  | nil => exact hu
  | cons de t ih =>
    rw [List.foldl_cons]
    apply ih
    cases hblk : getExpiringBlock s.btlPolicy de.1.nsCollBlk.ns de.1.nsCollBlk.coll
        de.1.nsCollBlk.blkNum with
    | some expiringBlk =>
      cases hexp : getExpiryDataFromUpdateEntriesOrStore s u
          (⟨expiringBlk, de.1.nsCollBlk.blkNum⟩ : ExpiryKey) with
      | none =>
        have hstep : constructUpdateEntriesStep s u de = u := by
          simp [constructUpdateEntriesStep, hblk, hexp]
        rw [hstep]
        exact hu
      | some expiryData =>
        cases hmiss : getMissingDataFromUpdateEntriesOrStore s u de.1.nsCollBlk with
        | none =>
          have hstep : constructUpdateEntriesStep s u de = u := by
            simp [constructUpdateEntriesStep, hblk, hexp, hmiss]
          rw [hstep]
          exact hu
        | some missingData =>
          have hstep : constructUpdateEntriesStep s u de =
              (((u.addDataEntry de.1 de.2).updateAndAddExpiryEntry
                ⟨expiringBlk, de.1.nsCollBlk.blkNum⟩ expiryData de.1)
                |>.updateAndAddMissingDataEntry missingData de.1) := by
            simp [constructUpdateEntriesStep, hblk, hexp, hmiss]
          rw [hstep]
          intro p hp
          have hp2 : p ∈ alistPut u.expiryEntries
              (⟨expiringBlk, de.1.nsCollBlk.blkNum⟩ : ExpiryKey)
              (expiryData.addPresentData de.1.nsCollBlk.ns de.1.nsCollBlk.coll
                de.1.txNum) := hp
          rcases mem_alistPut _ _ _ _ hp2 with hp3 | hp3
          · rw [hp3]
            show ExpiryData.mentions (ExpiryData.addPresentData _ _ _ _) ns coll = false
            rw [mentions_addPresentData,
              getExpiringBlock_ne_pair s.btlPolicy ns coll _ _ _ _ hbtl hblk,
              Bool.or_false]
            unfold getExpiryDataFromUpdateEntriesOrStore at hexp
            cases hu2 : alistLookup u.expiryEntries
                (⟨expiringBlk, de.1.nsCollBlk.blkNum⟩ : ExpiryKey) with
            | some ed =>
              rw [hu2] at hexp
              cases Option.some.inj hexp
              exact hu _ (alistLookup_mem _ _ _ hu2)
            | none =>
              rw [hu2] at hexp
              have hst : alistLookup s.db.expiryEntries
                  (⟨expiringBlk, de.1.nsCollBlk.blkNum⟩ : ExpiryKey) =
                  some expiryData := hexp
              exact h _ (alistLookup_mem _ _ _ hst)
          · exact hu p hp3.1
    | none =>
      cases hmiss : getMissingDataFromUpdateEntriesOrStore s u de.1.nsCollBlk with
      | none =>
        have hstep : constructUpdateEntriesStep s u de = u := by
          simp [constructUpdateEntriesStep, hblk, hmiss]
        rw [hstep]
        exact hu
      | some missingData =>
        have hstep : constructUpdateEntriesStep s u de =
            (u.addDataEntry de.1 de.2).updateAndAddMissingDataEntry missingData de.1 := by
          simp [constructUpdateEntriesStep, hblk, hmiss]
        rw [hstep]
        exact hu

theorem dataRemoveFold_lookup (ks : List DataKey) (db : StoreDB) (dk : DataKey)
    (h : ∀ k ∈ ks, k ≠ dk) :
    alistLookup
      (ks.foldl (fun db k => { db with dataEntries := alistRemove db.dataEntries k })
        db).dataEntries dk = alistLookup db.dataEntries dk := by
  induction ks generalizing db with
  | nil => rfl
  | cons k t ih =>
    rw [List.foldl_cons, ih _ (fun q hq => h q (List.mem_cons_of_mem _ hq))]
    show alistLookup (alistRemove db.dataEntries k) dk = _
    exact alistLookup_remove_ne _ _ _
      (fun e => h k (List.mem_cons_self _ _) e.symm)

theorem deriveKeys_data_ne (ek : ExpiryKey) (ed : ExpiryData) (ns coll : String)
    (hm : ExpiryData.mentions ed ns coll = false) (dk : DataKey)
    (hns : dk.nsCollBlk.ns = ns) (hcoll : dk.nsCollBlk.coll = coll) :
    ∀ k ∈ (deriveKeys ek ed).1, k ≠ dk := by
  intro k hk he
  obtain ⟨q, hq, hkq⟩ := List.mem_map.mp hk
  have hqns : q.1 = ns := by
    rw [← hns, ← he, ← hkq]
  have hqcoll : q.2.1 = coll := by
    rw [← hcoll, ← he, ← hkq]
  have := Bool.or_eq_false_iff.mp hm
  have h1 := List.any_eq_false.mp this.1 q hq
  simp [hqns, hqcoll] at h1

theorem purgeEntryDeletes_data_lookup (db : StoreDB) (e : ExpiryKey × ExpiryData)
    (dk : DataKey) (h : ∀ k ∈ (deriveKeys e.1 e.2).1, k ≠ dk) :
    alistLookup (purgeEntryDeletes db e).dataEntries dk =
      alistLookup db.dataEntries dk := by
  simp only [purgeEntryDeletes]
  rw [missingRemoveFold_dataEntries, dataRemoveFold_lookup _ _ _ h]

theorem purgeFold_data_lookup (L : List (ExpiryKey × ExpiryData)) (db : StoreDB)
    (ns coll : String) (hL : ∀ e ∈ L, ExpiryData.mentions e.2 ns coll = false)
    (dk : DataKey) (hns : dk.nsCollBlk.ns = ns) (hcoll : dk.nsCollBlk.coll = coll) :
    alistLookup (L.foldl purgeEntryDeletes db).dataEntries dk =
      alistLookup db.dataEntries dk := by
  induction L generalizing db with
  | nil => rfl
  | cons e t ih =>
    rw [List.foldl_cons, ih _ (fun q hq => hL q (List.mem_cons_of_mem _ hq))]
    exact purgeEntryDeletes_data_lookup db e dk
      (deriveKeys_data_ne e.1 e.2 ns coll (hL e (List.mem_cons_self _ _)) dk hns hcoll)

/-- Claim C6: for a collection `(ns, coll)` whose BTL policy reports the
never-expires value (BTL = 0), neither `Commit` nor
`CommitPvtDataOfOldBlocks` ever creates an expiry entry referencing it,
the read path's expiry check never reports it expired at any committed
height, and the purge sweep never deletes its data entries. -/
theorem c6_never_expiring (s : Store) (ns coll : String)
    (hbtl : s.btlPolicy ns coll = 0) :
    (∀ blockNum pvtData missingPvtData, noExpiryRef s.db ns coll →
      noExpiryRef (s.Commit blockNum pvtData missingPvtData).2.db ns coll) ∧
    (∀ blocksPvtData, noExpiryRef s.db ns coll →
      noExpiryRef (s.CommitPvtDataOfOldBlocks blocksPvtData).2.db ns coll) ∧
    (∀ blkNum height, isExpired ⟨ns, coll, blkNum⟩ s.btlPolicy height = false) ∧
    (∀ minBlkNum maxBlkNum, noExpiryRef s.db ns coll → ∀ dk : DataKey,
      dk.nsCollBlk.ns = ns → dk.nsCollBlk.coll = coll →
      alistLookup (s.purgeExpiredData minBlkNum maxBlkNum).db.dataEntries dk =
        alistLookup s.db.dataEntries dk) := by
  refine ⟨?_, ?_, ?_, ?_⟩
  · intro blockNum pvtData missingPvtData h
    exact commit_noExpiryRef s ns coll hbtl blockNum pvtData missingPvtData h
  · intro blocksPvtData h
    unfold Store.CommitPvtDataOfOldBlocks
    by_cases hflag : s.isLastUpdatedOldBlocksSet
    · rw [if_pos hflag]
      exact h
    · rw [if_neg hflag]
      intro p hp
      show ExpiryData.mentions p.2 ns coll = false
      have hmf := missingUpdFold_expiryEntries
        (s.constructUpdateEntriesFromDataEntries
          (constructDataEntriesFromBlocksPvtData blocksPvtData)).missingDataEntries
      have hp2 : p ∈ (putExpiryEntries
          (putDataEntries s.db
            (s.constructUpdateEntriesFromDataEntries
              (constructDataEntriesFromBlocksPvtData blocksPvtData)).dataEntries)
          (s.constructUpdateEntriesFromDataEntries
            (constructDataEntriesFromBlocksPvtData blocksPvtData)).expiryEntries).expiryEntries := by
        have := hmf (putExpiryEntries
          (putDataEntries s.db
            (s.constructUpdateEntriesFromDataEntries
              (constructDataEntriesFromBlocksPvtData blocksPvtData)).dataEntries)
          (s.constructUpdateEntriesFromDataEntries
            (constructDataEntriesFromBlocksPvtData blocksPvtData)).expiryEntries)
        simpa [applyUpdateEntries, this] using hp
      rcases mem_putExpiryEntries _ _ _ hp2 with hp3 | hp3
      · rw [putDataEntries_expiryEntries] at hp3
        exact h p hp3
      · exact constructUpdate_mentions_free s ns coll hbtl h _ ⟨[], [], []⟩
          (by intro p hp; cases hp) p hp3
  · intro blkNum height
    unfold isExpired getExpiringBlock
    simp [hbtl]
  · intro minBlkNum maxBlkNum h dk hns hcoll
    unfold Store.purgeExpiredData
    by_cases h0 : (s.retrieveExpiryEntries minBlkNum maxBlkNum).isEmpty
    · rw [if_pos h0]
    · rw [if_neg h0]
      apply purgeFold_data_lookup _ _ ns coll _ dk hns hcoll
      intro e he
      have := List.mem_filter.mp he
      exact h e this.1

/-- Witness for C6: in the all-BTL-0 witness store, committing a block and
merging old-block data keep the expiry family empty of references to
`(ns0, coll0)`, the expiry check reports false at a large height, and a
full purge sweep leaves the concrete data entry in place. -/
theorem c6_never_expiring_witness :
    storeBtl0W.btlPolicy "ns0" "coll0" = 0 ∧
    noExpiryRef storeBtl0W.db "ns0" "coll0" ∧
    noExpiryRef (storeBtl0W.Commit 5 [] []).2.db "ns0" "coll0" ∧
    isExpired ⟨"ns0", "coll0", 1⟩ storeBtl0W.btlPolicy 1000000 = false ∧
    alistLookup (storeBtl0W.purgeExpiredData 0 1000000).db.dataEntries
        ⟨⟨"ns0", "coll0", 1⟩, 7⟩ =
      alistLookup storeBtl0W.db.dataEntries ⟨⟨"ns0", "coll0", 1⟩, 7⟩ :=
  ⟨rfl, by unfold noExpiryRef; decide,
    (c6_never_expiring storeBtl0W "ns0" "coll0" rfl).1 5 [] []
      (by unfold noExpiryRef; decide),
    (c6_never_expiring storeBtl0W "ns0" "coll0" rfl).2.2.1 1 1000000,
    (c6_never_expiring storeBtl0W "ns0" "coll0" rfl).2.2.2 0 1000000
      (by unfold noExpiryRef; decide) ⟨⟨"ns0", "coll0", 1⟩, 7⟩ rfl rfl⟩

/-! ## Reconciliation-engine lemmas and claim C3 -/

theorem findInvalidNsFold_spec (hashFn : HashFn) (txRWSet : TxRwSet)
    (blkNum txNum : Nat) (nsRwset : NsPvtReadWriteSet)
    (colls : List CollectionPvtReadWriteSet)
    (acc : List PvtdataHashMismatch × List NsColl) :
    colls.foldl
      (fun acc collPvtRwset =>
        match txRWSet nsRwset.ns collPvtRwset.collectionName with
        | none => (acc.1, acc.2 ++ [⟨nsRwset.ns, collPvtRwset.collectionName⟩])
        | some rwsetHash =>
          if hashFn collPvtRwset.rwset ≠ rwsetHash then
            (acc.1 ++ [⟨blkNum, txNum, nsRwset.ns, collPvtRwset.collectionName,
                rwsetHash⟩],
              acc.2 ++ [⟨nsRwset.ns, collPvtRwset.collectionName⟩])
          else acc)
      acc =
    (acc.1 ++ emNsList hashFn txRWSet blkNum txNum nsRwset.ns colls,
      acc.2 ++ badNsList hashFn txRWSet nsRwset.ns colls) := by
  induction colls generalizing acc with
  | nil => simp [emNsList, badNsList]
  | cons c t ih =>
    rw [List.foldl_cons, ih]
    cases hrec : txRWSet nsRwset.ns c.collectionName with
    | none =>
      simp [emNsList, badNsList, goodColl, hrec, List.filterMap_cons,
        List.filter_cons]
    | some h =>
      by_cases hh : hashFn c.rwset = h
      · simp [emNsList, badNsList, goodColl, hrec, hh, List.filterMap_cons,
          List.filter_cons]
      · simp [emNsList, badNsList, goodColl, hrec, hh, List.filterMap_cons,
          List.filter_cons]

theorem findInvalidNsPvtData_spec (hashFn : HashFn) (txRWSet : TxRwSet)
    (blkNum txNum : Nat) (nsRwset : NsPvtReadWriteSet) :
    findInvalidNsPvtData hashFn nsRwset txRWSet blkNum txNum =
      (emNsList hashFn txRWSet blkNum txNum nsRwset.ns nsRwset.collectionPvtRwset,
        badNsList hashFn txRWSet nsRwset.ns nsRwset.collectionPvtRwset) := by
  unfold findInvalidNsPvtData
  rw [findInvalidNsFold_spec]
  simp

theorem expectedMismatches_cons (hashFn : HashFn) (txRWSet : TxRwSet)
    (blkNum txNum : Nat) (n : NsPvtReadWriteSet) (t : List NsPvtReadWriteSet) :
    expectedMismatches hashFn txRWSet blkNum txNum (n :: t) =
      emNsList hashFn txRWSet blkNum txNum n.ns n.collectionPvtRwset ++
        expectedMismatches hashFn txRWSet blkNum txNum t := by
  simp [expectedMismatches]

theorem badPairs_cons (hashFn : HashFn) (txRWSet : TxRwSet)
    (n : NsPvtReadWriteSet) (t : List NsPvtReadWriteSet) :
    badPairs hashFn txRWSet (n :: t) =
      badNsList hashFn txRWSet n.ns n.collectionPvtRwset ++
        badPairs hashFn txRWSet t := by
  simp [badPairs]

theorem collectedFold_spec (hashFn : HashFn) (txRWSet : TxRwSet)
    (blkNum txNum : Nat) (l : List NsPvtReadWriteSet)
    (acc : List PvtdataHashMismatch × List NsColl) :
    l.foldl
      (fun acc nsRwset =>
        (acc.1 ++ (findInvalidNsPvtData hashFn nsRwset txRWSet blkNum txNum).1,
          acc.2 ++ (findInvalidNsPvtData hashFn nsRwset txRWSet blkNum txNum).2))
      acc =
    (acc.1 ++ expectedMismatches hashFn txRWSet blkNum txNum l,
      acc.2 ++ badPairs hashFn txRWSet l) := by
  induction l generalizing acc with
  | nil => simp [expectedMismatches, badPairs]
  | cons n t ih =>
    rw [List.foldl_cons, ih, findInvalidNsPvtData_spec, expectedMismatches_cons,
      badPairs_cons]
    simp

theorem removeCollFromNs_cons (c : CollectionPvtReadWriteSet)
    (rest : List CollectionPvtReadWriteSet) (collName : String) :
    removeCollFromNsPvtWriteSet (c :: rest) collName =
      if c.collectionName = collName then rest
      else c :: removeCollFromNsPvtWriteSet rest collName := rfl

theorem removeCollFromTx_cons (n : NsPvtReadWriteSet)
    (rest : List NsPvtReadWriteSet) (ns coll : String) :
    removeCollFromTxPvtReadWriteSet (n :: rest) ns coll =
      if n.ns ≠ ns then n :: removeCollFromTxPvtReadWriteSet rest ns coll
      else
        if (removeCollFromNsPvtWriteSet n.collectionPvtRwset coll).isEmpty then rest
        else ⟨n.ns, removeCollFromNsPvtWriteSet n.collectionPvtRwset coll⟩ :: rest := by
  rfl

theorem innerRemoveFold_skip_head (c : CollectionPvtReadWriteSet)
    (bs : List NsColl) (cl : List CollectionPvtReadWriteSet)
    (h : ∀ nc ∈ bs, nc.coll ≠ c.collectionName) :
    bs.foldl (fun cl2 nc => removeCollFromNsPvtWriteSet cl2 nc.coll) (c :: cl) =
      c :: bs.foldl (fun cl2 nc => removeCollFromNsPvtWriteSet cl2 nc.coll) cl := by
  induction bs generalizing cl with
  | nil => rfl
  | cons b t ih =>
    rw [List.foldl_cons, List.foldl_cons, removeCollFromNs_cons,
      if_neg (fun e => h b (List.mem_cons_self _ _) e.symm)]
    exact ih _ (fun nc hnc => h nc (List.mem_cons_of_mem _ hnc))

theorem mem_badNsList_props (hashFn : HashFn) (txRWSet : TxRwSet) (ns : String)
    (colls : List CollectionPvtReadWriteSet) (nc : NsColl)
    (h : nc ∈ badNsList hashFn txRWSet ns colls) :
    nc.ns = ns ∧ ∃ c ∈ colls, nc.coll = c.collectionName ∧
      goodColl hashFn txRWSet ns c = false := by
  obtain ⟨c, hc, hnc⟩ := List.mem_map.mp h
  have hcf := List.mem_filter.mp hc
  refine ⟨by rw [← hnc], c, hcf.1, by rw [← hnc], by simpa using hcf.2⟩

theorem innerRemoveFold_filter (hashFn : HashFn) (txRWSet : TxRwSet)
    (ns : String) (colls : List CollectionPvtReadWriteSet)
    (hnodup : (colls.map CollectionPvtReadWriteSet.collectionName).Nodup) :
    (badNsList hashFn txRWSet ns colls).foldl
      (fun cl2 nc => removeCollFromNsPvtWriteSet cl2 nc.coll) colls =
      colls.filter (goodColl hashFn txRWSet ns) := by
  induction colls with
  | nil => rfl
  | cons c t ih =>
    have hnodup2 : c.collectionName ∉
        t.map CollectionPvtReadWriteSet.collectionName ∧
        (t.map CollectionPvtReadWriteSet.collectionName).Nodup := by
      rw [List.map_cons] at hnodup
      exact List.nodup_cons.mp hnodup
    by_cases hg : goodColl hashFn txRWSet ns c = true
    · have hbad : badNsList hashFn txRWSet ns (c :: t) =
          badNsList hashFn txRWSet ns t := by
        simp [badNsList, List.filter_cons, hg]
      rw [hbad, innerRemoveFold_skip_head c _ t ?hne, ih hnodup2.2,
        List.filter_cons, if_pos hg]
      case hne =>
        intro nc hnc he
        obtain ⟨hns2, c2, hc2, hcoll2, _⟩ := mem_badNsList_props _ _ _ _ _ hnc
        exact hnodup2.1
          (List.mem_map.mpr ⟨c2, hc2, (he.symm.trans hcoll2).symm⟩)
    · have hgf : goodColl hashFn txRWSet ns c = false := by
        cases hgg : goodColl hashFn txRWSet ns c
        · rfl
        · exact absurd hgg hg
      have hbad : badNsList hashFn txRWSet ns (c :: t) =
          (⟨ns, c.collectionName⟩ : NsColl) :: badNsList hashFn txRWSet ns t := by
        simp [badNsList, List.filter_cons, hgf]
      rw [hbad, List.foldl_cons]
      show (badNsList hashFn txRWSet ns t).foldl
        (fun cl2 nc => removeCollFromNsPvtWriteSet cl2 nc.coll)
        (removeCollFromNsPvtWriteSet (c :: t) c.collectionName) = _
      rw [removeCollFromNs_cons, if_pos rfl, ih hnodup2.2, List.filter_cons]
      rw [if_neg (by simp [hgf])]

theorem removeFold_keep_head (ns : String) (c : CollectionPvtReadWriteSet)
    (bs : List NsColl) (cl : List CollectionPvtReadWriteSet)
    (rest : List NsPvtReadWriteSet)
    (h : ∀ nc ∈ bs, nc.ns = ns ∧ nc.coll ≠ c.collectionName) :
    bs.foldl (fun l nc => removeCollFromTxPvtReadWriteSet l nc.ns nc.coll)
      ((⟨ns, c :: cl⟩ : NsPvtReadWriteSet) :: rest) =
      (⟨ns, c :: bs.foldl (fun cl2 nc => removeCollFromNsPvtWriteSet cl2 nc.coll)
        cl⟩ : NsPvtReadWriteSet) :: rest := by
  induction bs generalizing cl with
  | nil => rfl
  | cons b t ih =>
    have hb := h b (List.mem_cons_self _ _)
    rw [List.foldl_cons, List.foldl_cons]
    have hstep : removeCollFromTxPvtReadWriteSet
        ((⟨ns, c :: cl⟩ : NsPvtReadWriteSet) :: rest) b.ns b.coll =
        (⟨ns, c :: removeCollFromNsPvtWriteSet cl b.coll⟩ : NsPvtReadWriteSet) :: rest := by
      rw [removeCollFromTx_cons]
      rw [if_neg (show ¬((⟨ns, c :: cl⟩ : NsPvtReadWriteSet).ns ≠ b.ns) from by
        rw [hb.1]
        exact fun hne => hne rfl)]
      rw [show removeCollFromNsPvtWriteSet
          ((⟨ns, c :: cl⟩ : NsPvtReadWriteSet)).collectionPvtRwset b.coll =
          c :: removeCollFromNsPvtWriteSet cl b.coll from by
        show removeCollFromNsPvtWriteSet (c :: cl) b.coll = _
        rw [removeCollFromNs_cons, if_neg (fun e => hb.2 e.symm)]]
      rfl
    rw [hstep]
    exact ih _ (fun nc hnc => h nc (List.mem_cons_of_mem _ hnc))

theorem removeFold_group_head (hashFn : HashFn) (txRWSet : TxRwSet) (ns : String)
    (colls : List CollectionPvtReadWriteSet) (rest : List NsPvtReadWriteSet)
    (hnodup : (colls.map CollectionPvtReadWriteSet.collectionName).Nodup)
    (hne : colls ≠ []) :
    (badNsList hashFn txRWSet ns colls).foldl
      (fun l nc => removeCollFromTxPvtReadWriteSet l nc.ns nc.coll)
      ((⟨ns, colls⟩ : NsPvtReadWriteSet) :: rest) =
      (if (colls.filter (goodColl hashFn txRWSet ns)).isEmpty then rest
        else (⟨ns, colls.filter (goodColl hashFn txRWSet ns)⟩ :
          NsPvtReadWriteSet) :: rest) := by
  induction colls generalizing rest with
  | nil => exact absurd rfl hne
  | cons c t ih =>
    have hnodup2 : c.collectionName ∉
        t.map CollectionPvtReadWriteSet.collectionName ∧
        (t.map CollectionPvtReadWriteSet.collectionName).Nodup := by
      rw [List.map_cons] at hnodup
      exact List.nodup_cons.mp hnodup
    by_cases hg : goodColl hashFn txRWSet ns c = true
    · have hbad : badNsList hashFn txRWSet ns (c :: t) =
          badNsList hashFn txRWSet ns t := by
        simp [badNsList, List.filter_cons, hg]
      rw [hbad]
      have hprops : ∀ nc ∈ badNsList hashFn txRWSet ns t,
          nc.ns = ns ∧ nc.coll ≠ c.collectionName := by
        intro nc hnc
        obtain ⟨hns2, c2, hc2, hcoll2, _⟩ := mem_badNsList_props _ _ _ _ _ hnc
        refine ⟨hns2, fun he => ?_⟩
        exact hnodup2.1
          (List.mem_map.mpr ⟨c2, hc2, (he.symm.trans hcoll2).symm⟩)
      rw [removeFold_keep_head ns c _ t rest hprops,
        innerRemoveFold_filter hashFn txRWSet ns t hnodup2.2]
      rw [List.filter_cons, if_pos hg]
      rw [if_neg (by simp)]
    · have hgf : goodColl hashFn txRWSet ns c = false := by
        cases hgg : goodColl hashFn txRWSet ns c
        · rfl
        · exact absurd hgg hg
      have hbad : badNsList hashFn txRWSet ns (c :: t) =
          (⟨ns, c.collectionName⟩ : NsColl) :: badNsList hashFn txRWSet ns t := by
        simp [badNsList, List.filter_cons, hgf]
      rw [hbad, List.foldl_cons]
      have hstep : removeCollFromTxPvtReadWriteSet
          ((⟨ns, c :: t⟩ : NsPvtReadWriteSet) :: rest) ns c.collectionName =
          (if t.isEmpty then rest else (⟨ns, t⟩ : NsPvtReadWriteSet) :: rest) := by
        rw [removeCollFromTx_cons]
        rw [if_neg (show ¬((⟨ns, c :: t⟩ : NsPvtReadWriteSet).ns ≠ ns) from
          fun hne2 => hne2 rfl)]
        rw [show removeCollFromNsPvtWriteSet
            ((⟨ns, c :: t⟩ : NsPvtReadWriteSet)).collectionPvtRwset c.collectionName = t from by
          show removeCollFromNsPvtWriteSet (c :: t) c.collectionName = t
          rw [removeCollFromNs_cons, if_pos rfl]]
      rw [hstep]
      cases t with
      | nil =>
        rw [List.filter_cons]
        simp [hgf, badNsList]
      | cons c2 t2 =>
        rw [show (if (c2 :: t2).isEmpty then rest
            else (⟨ns, c2 :: t2⟩ : NsPvtReadWriteSet) :: rest) =
            (⟨ns, c2 :: t2⟩ : NsPvtReadWriteSet) :: rest from by simp]
        rw [ih rest hnodup2.2 (by simp)]
        have hfe : List.filter (goodColl hashFn txRWSet ns) (c :: c2 :: t2) =
            List.filter (goodColl hashFn txRWSet ns) (c2 :: t2) := by
          rw [List.filter_cons, if_neg (by simp [hgf])]
        rw [hfe]

theorem removeFold_skip_head (bs : List NsColl) (g : NsPvtReadWriteSet)
    (l : List NsPvtReadWriteSet) (h : ∀ nc ∈ bs, g.ns ≠ nc.ns) :
    bs.foldl (fun l nc => removeCollFromTxPvtReadWriteSet l nc.ns nc.coll)
      (g :: l) =
      g :: bs.foldl (fun l nc => removeCollFromTxPvtReadWriteSet l nc.ns nc.coll) l := by
  induction bs generalizing l with
  | nil => rfl
  | cons b t ih =>
    rw [List.foldl_cons, List.foldl_cons, removeCollFromTx_cons,
      if_pos (h b (List.mem_cons_self _ _))]
    exact ih _ (fun nc hnc => h nc (List.mem_cons_of_mem _ hnc))

theorem mem_badPairs_ns (hashFn : HashFn) (txRWSet : TxRwSet)
    (l : List NsPvtReadWriteSet) (nc : NsColl)
    (h : nc ∈ badPairs hashFn txRWSet l) :
    nc.ns ∈ l.map NsPvtReadWriteSet.ns := by
  induction l with
  | nil => cases h
  | cons n t ih =>
    rw [badPairs_cons] at h
    rcases List.mem_append.mp h with h | h
    · obtain ⟨hns, _⟩ := mem_badNsList_props _ _ _ _ _ h
      rw [List.map_cons]
      exact hns ▸ List.mem_cons_self _ _
    · exact List.mem_cons_of_mem _ (ih h)

theorem filterGood_cons (hashFn : HashFn) (txRWSet : TxRwSet)
    (n : NsPvtReadWriteSet) (t : List NsPvtReadWriteSet) :
    filterGoodNsPvtRwset hashFn txRWSet (n :: t) =
      (if (n.collectionPvtRwset.filter (goodColl hashFn txRWSet n.ns)).isEmpty then
        filterGoodNsPvtRwset hashFn txRWSet t
      else (⟨n.ns, n.collectionPvtRwset.filter (goodColl hashFn txRWSet n.ns)⟩ :
        NsPvtReadWriteSet) :: filterGoodNsPvtRwset hashFn txRWSet t) := by
  by_cases he : (n.collectionPvtRwset.filter (goodColl hashFn txRWSet n.ns)).isEmpty
  · rw [if_pos he]
    simp only [filterGoodNsPvtRwset, List.map_cons, List.filter_cons]
    rw [if_neg (by simpa using he)]
  · rw [if_neg he]
    simp only [filterGoodNsPvtRwset, List.map_cons, List.filter_cons]
    rw [if_pos (by simpa using he)]

theorem removeAll_filterGood (hashFn : HashFn) (txRWSet : TxRwSet)
    (l : List NsPvtReadWriteSet) (hwf : wsWellFormed l) :
    (badPairs hashFn txRWSet l).foldl
      (fun l nc => removeCollFromTxPvtReadWriteSet l nc.ns nc.coll) l =
      filterGoodNsPvtRwset hashFn txRWSet l := by
  induction l with
  | nil => rfl
  | cons n t ih =>
    have hwf2 : wsWellFormed t := by
      refine ⟨?_, ?_⟩
      · have := hwf.1
        rw [List.map_cons, List.nodup_cons] at this
        exact this.2
      · intro n2 hn2
        exact hwf.2 n2 (List.mem_cons_of_mem _ hn2)
    have hn := hwf.2 n (List.mem_cons_self _ _)
    have hns_notin : n.ns ∉ t.map NsPvtReadWriteSet.ns := by
      have := hwf.1
      rw [List.map_cons, List.nodup_cons] at this
      exact this.1
    rw [badPairs_cons, List.foldl_append]
    have hgroup := removeFold_group_head hashFn txRWSet n.ns n.collectionPvtRwset
      t hn.1 hn.2
    rw [show ((⟨n.ns, n.collectionPvtRwset⟩ : NsPvtReadWriteSet) :: t) = n :: t
        from by rfl] at hgroup
    rw [hgroup, filterGood_cons]
    by_cases he : (n.collectionPvtRwset.filter (goodColl hashFn txRWSet n.ns)).isEmpty
    · rw [if_pos he, if_pos he]
      exact ih hwf2
    · rw [if_neg he, if_neg he]
      have hskip := removeFold_skip_head (badPairs hashFn txRWSet t)
        ⟨n.ns, n.collectionPvtRwset.filter (goodColl hashFn txRWSet n.ns)⟩ t
        (fun nc hnc hne => by
          refine hns_notin ?_
          have h2 : n.ns = nc.ns := hne
          rw [h2]
          exact mem_badPairs_ns hashFn txRWSet t nc hnc)
      rw [hskip, ih hwf2]

theorem mem_emNsList_props (hashFn : HashFn) (txRWSet : TxRwSet)
    (blkNum txNum : Nat) (ns : String) (colls : List CollectionPvtReadWriteSet)
    (m : PvtdataHashMismatch) (h : m ∈ emNsList hashFn txRWSet blkNum txNum ns colls) :
    m.blockNum = blkNum ∧ m.txNum = txNum ∧
      txRWSet m.ns m.coll = some m.expectedHash := by
  induction colls with
  | nil => cases h
  | cons c t ih =>
    rw [emNsList, List.filterMap_cons] at h
    cases hrec : txRWSet ns c.collectionName with
    | none =>
      simp only [hrec] at h
      exact ih h
    | some hh =>
      simp only [hrec] at h
      by_cases heq : hashFn c.rwset = hh
      · rw [if_pos heq] at h
        exact ih h
      · rw [if_neg heq] at h
        rcases List.mem_cons.mp h with h | h
        · rw [h]
          exact ⟨rfl, rfl, hrec⟩
        · exact ih h

theorem mem_expectedMismatches_props (hashFn : HashFn) (txRWSet : TxRwSet)
    (blkNum txNum : Nat) (l : List NsPvtReadWriteSet) (m : PvtdataHashMismatch)
    (h : m ∈ expectedMismatches hashFn txRWSet blkNum txNum l) :
    m.blockNum = blkNum ∧ m.txNum = txNum ∧
      txRWSet m.ns m.coll = some m.expectedHash := by
  induction l with
  | nil => cases h
  | cons n t ih =>
    rw [expectedMismatches_cons] at h
    rcases List.mem_append.mp h with h | h
    · exact mem_emNsList_props _ _ _ _ _ _ _ h
    · exact ih h

/-- Claim C3 (amended) — the reconciliation split, for transactions whose
write-set is well-formed (each namespace listed at most once, collection
names unique within a namespace entry, no empty namespace entry):
`findValidAndInvalidTxPvtData` keeps exactly the collections whose supplied
data matches a recorded hash (dropping namespace entries that become
empty), drops the transaction entirely exactly when no collection
survives, and reports one mismatch record `(blockNum, txNum, ns, coll,
expected hash)` per collection with a recorded hash the supplied data
fails to match — a collection the transaction never accessed (no recorded
hash) is removed without any mismatch record. Without well-formedness the
removal can miss a duplicate namespace entry (see the counterexample). -/
theorem c3_reconciliation_split (hashFn : HashFn) (txRWSet : TxRwSet)
    (txPvtData : TxPvtData) (blkNum : Nat)
    (hwf : wsWellFormed txPvtData.writeSet.nsPvtRwset) :
    findValidAndInvalidTxPvtData hashFn txPvtData txRWSet blkNum =
      (if (filterGoodNsPvtRwset hashFn txRWSet txPvtData.writeSet.nsPvtRwset).isEmpty
        then none
        else some { txPvtData with writeSet :=
          ⟨filterGoodNsPvtRwset hashFn txRWSet txPvtData.writeSet.nsPvtRwset⟩ },
        expectedMismatches hashFn txRWSet blkNum txPvtData.seqInBlock
          txPvtData.writeSet.nsPvtRwset) ∧
    (∀ m ∈ (findValidAndInvalidTxPvtData hashFn txPvtData txRWSet blkNum).2,
      m.blockNum = blkNum ∧ m.txNum = txPvtData.seqInBlock ∧
        txRWSet m.ns m.coll = some m.expectedHash) := by
  have hchar : findValidAndInvalidTxPvtData hashFn txPvtData txRWSet blkNum =
      (if (filterGoodNsPvtRwset hashFn txRWSet txPvtData.writeSet.nsPvtRwset).isEmpty
        then none
        else some { txPvtData with writeSet :=
          ⟨filterGoodNsPvtRwset hashFn txRWSet txPvtData.writeSet.nsPvtRwset⟩ },
        expectedMismatches hashFn txRWSet blkNum txPvtData.seqInBlock
          txPvtData.writeSet.nsPvtRwset) := by
    simp only [findValidAndInvalidTxPvtData]
    rw [collectedFold_spec]
    simp only [List.nil_append]
    rw [removeAll_filterGood hashFn txRWSet _ hwf]
    by_cases he :
      (filterGoodNsPvtRwset hashFn txRWSet txPvtData.writeSet.nsPvtRwset).isEmpty
    · rw [if_pos he, if_pos he]
    · rw [if_neg he, if_neg he]
  refine ⟨hchar, ?_⟩
  intro m hm
  rw [hchar] at hm
  exact mem_expectedMismatches_props _ _ _ _ _ _ hm

/-- Witness for C3 (amended): on a concrete well-formed transaction with a
never-accessed collection, a hash-matching collection and a hash-mismatched
collection, the split equals the filter-good characterization. -/
theorem c3_reconciliation_split_witness :
    wsWellFormed txRecW.writeSet.nsPvtRwset ∧
    findValidAndInvalidTxPvtData idHash txRecW rwsetRecW 9 =
      (if (filterGoodNsPvtRwset idHash rwsetRecW txRecW.writeSet.nsPvtRwset).isEmpty
        then none
        else some { txRecW with writeSet :=
          ⟨filterGoodNsPvtRwset idHash rwsetRecW txRecW.writeSet.nsPvtRwset⟩ },
        expectedMismatches idHash rwsetRecW 9 txRecW.seqInBlock
          txRecW.writeSet.nsPvtRwset) :=
  ⟨by unfold wsWellFormed; decide,
    (c3_reconciliation_split idHash rwsetRecW txRecW 9
      (by unfold wsWellFormed; decide)).1⟩

/-- Counterexample for C3 as stated: in a write-set listing namespace
`ns1` twice, the collection `("ns1", "collA")` has no recorded hash, yet
after the reconciliation split it is still contained in the valid
transaction's write-set (and, correctly, appears in no mismatch record) —
so a never-accessed collection is not always removed. -/
theorem c3_reconciliation_split_counterexample :
    rwsetDupNs "ns1" "collA" = none ∧
    ((findValidAndInvalidTxPvtData idHash txDupNs rwsetDupNs 5).1.map
      (fun t => wsContainsNsColl t.writeSet "ns1" "collA")) = some true ∧
    (findValidAndInvalidTxPvtData idHash txDupNs rwsetDupNs 5).2 = [] := by
  refine ⟨rfl, ?_, ?_⟩ <;> rfl

theorem alistFilterNe_of_lookup_none {κ α : Type} [DecidableEq κ]
    (l : List (κ × α)) (k : κ) (h : alistLookup l k = none) :
    l.filter (fun p => decide (p.1 ≠ k)) = l := by
  induction l with
  | nil => rfl
  | cons p t ih =>
    rw [alistLookup_cons] at h
    by_cases hp : p.1 = k
    · rw [if_pos hp] at h
      cases h
    · rw [if_neg hp] at h
      rw [List.filter_cons, if_pos (by simpa using hp), ih h]

theorem alistFilterNe_of_not_mem_keys {κ α : Type} [DecidableEq κ]
    (l : List (κ × α)) (k : κ) (h : k ∉ l.map Prod.fst) :
    l.filter (fun p => decide (p.1 ≠ k)) = l := by
  induction l with
  | nil => rfl
  | cons p t ih =>
    rw [List.map_cons] at h
    have hp : p.1 ≠ k := fun e => h (e ▸ List.mem_cons_self _ _)
    rw [List.filter_cons, if_pos (by simpa using hp),
      ih (fun hm => h (List.mem_cons_of_mem _ hm))]

theorem alistFilterNe_length_of_lookup_some {κ α : Type} [DecidableEq κ]
    (l : List (κ × α)) (k : κ) (v : α) (h : alistLookup l k = some v) :
    (l.filter (fun p => decide (p.1 ≠ k))).length + 1 ≤ l.length := by
  induction l with
  | nil => cases h
  | cons p t ih =>
    rw [alistLookup_cons] at h
    by_cases hp : p.1 = k
    · rw [List.filter_cons, if_neg (by simpa using hp), List.length_cons]
      exact Nat.succ_le_succ (List.length_filter_le _ t)
    · rw [if_neg hp] at h
      rw [List.filter_cons, if_pos (by simpa using hp), List.length_cons,
        List.length_cons]
      exact Nat.succ_le_succ (ih h)

theorem length_le_alistFilterNe_add_one {κ α : Type} [DecidableEq κ]
    (l : List (κ × α)) (k : κ) (h : (l.map Prod.fst).Nodup) :
    l.length ≤ (l.filter (fun p => decide (p.1 ≠ k))).length + 1 := by
  induction l with
  | nil => exact Nat.zero_le _
  | cons p t ih =>
    rw [List.map_cons, List.nodup_cons] at h
    by_cases hp : p.1 = k
    · rw [List.filter_cons, if_neg (by simpa using hp),
        alistFilterNe_of_not_mem_keys t k (hp ▸ h.1), List.length_cons]
    · rw [List.filter_cons, if_pos (by simpa using hp), List.length_cons,
        List.length_cons]
      exact Nat.succ_le_succ (ih h.2)

theorem alistPut_filterNe {κ α : Type} [DecidableEq κ] (l : List (κ × α))
    (k : κ) (v : α) :
    (alistPut l k v).filter (fun p => decide (p.1 ≠ k)) =
      l.filter (fun p => decide (p.1 ≠ k)) := by
  rw [alistPut, List.filter_cons]
  rw [if_neg (by simp)]
  induction l with
  | nil => rfl
  | cons p t ih =>
    by_cases hp : p.1 = k
    · rw [List.filter_cons, if_neg (by simpa using hp), ih]
    · rw [List.filter_cons, if_pos (by simpa using hp), List.filter_cons,
        if_pos (by simpa using hp), ih]

theorem alistPut_length_of_lookup_none {κ α : Type} [DecidableEq κ]
    (l : List (κ × α)) (k : κ) (v : α) (h : alistLookup l k = none) :
    (alistPut l k v).length = l.length + 1 := by
  rw [alistPut, List.length_cons, alistFilterNe_of_lookup_none l k h]

theorem alistPut_length_le_of_lookup_some {κ α : Type} [DecidableEq κ]
    (l : List (κ × α)) (k : κ) (v w : α) (h : alistLookup l k = some w) :
    (alistPut l k v).length ≤ l.length := by
  rw [alistPut, List.length_cons]
  exact alistFilterNe_length_of_lookup_some l k w h

theorem infoAdd_keys_nodup (info : MissingPvtDataInfo) (blk tx : Nat)
    (ns coll : String) (h : (info.map Prod.fst).Nodup) :
    ((info.add blk tx ns coll).map Prod.fst).Nodup := by
  rw [MissingPvtDataInfo.add]
  cases alistLookup info blk with
  | none => exact alistPut_keys_nodup info blk _ h
  | some l => exact alistPut_keys_nodup info blk _ h

theorem infoAdd_lookup_ne (info : MissingPvtDataInfo) (blk tx : Nat)
    (ns coll : String) (b : Nat) (hb : b ≠ blk) :
    alistLookup (info.add blk tx ns coll) b = alistLookup info b := by
  rw [MissingPvtDataInfo.add]
  cases alistLookup info blk with
  | none => exact alistLookup_put_ne info blk b _ hb
  | some l => exact alistLookup_put_ne info blk b _ hb

theorem infoAdd_lookup_self_isSome (info : MissingPvtDataInfo) (blk tx : Nat)
    (ns coll : String) :
    (alistLookup (info.add blk tx ns coll) blk).isSome := by
  rw [MissingPvtDataInfo.add]
  cases alistLookup info blk with
  | none => rw [alistLookup_put_self]; rfl
  | some l => rw [alistLookup_put_self]; rfl

theorem infoAdd_filterNe (info : MissingPvtDataInfo) (blk tx : Nat)
    (ns coll : String) :
    (info.add blk tx ns coll).filter (fun p => decide (p.1 ≠ blk)) =
      info.filter (fun p => decide (p.1 ≠ blk)) := by
  rw [MissingPvtDataInfo.add]
  cases alistLookup info blk with
  | none => exact alistPut_filterNe info blk _
  | some l => exact alistPut_filterNe info blk _

theorem infoAdd_length_le (info : MissingPvtDataInfo) (blk tx : Nat)
    (ns coll : String) :
    (info.add blk tx ns coll).length ≤ info.length + 1 := by
  rw [MissingPvtDataInfo.add]
  cases h : alistLookup info blk with
  | none => rw [alistPut_length_of_lookup_none info blk _ h]
  | some l =>
    exact Nat.le_succ_of_le (alistPut_length_le_of_lookup_some info blk _ l h)

theorem infoAdd_length_le_of_lookup_some (info : MissingPvtDataInfo)
    (blk tx : Nat) (ns coll : String)
    (h : (alistLookup info blk).isSome) :
    (info.add blk tx ns coll).length ≤ info.length := by
  obtain ⟨l, hl⟩ := Option.isSome_iff_exists.mp h
  rw [MissingPvtDataInfo.add, hl]
  exact alistPut_length_le_of_lookup_some info blk _ l hl

theorem infoMem_infoAdd (info : MissingPvtDataInfo) (blk tx : Nat)
    (ns coll : String) (b : Nat) (x : Nat × String × String)
    (h : infoMem info b x) : infoMem (info.add blk tx ns coll) b x := by
  obtain ⟨lst, hlook, hx⟩ := h
  by_cases hb : b = blk
  · subst hb
    rw [MissingPvtDataInfo.add, hlook]
    exact ⟨lst ++ [(tx, ns, coll)], alistLookup_put_self info b _,
      List.mem_append_left _ hx⟩
  · exact ⟨lst, by rw [infoAdd_lookup_ne info blk tx ns coll b hb]; exact hlook,
      hx⟩

theorem infoMem_infoAdd_self (info : MissingPvtDataInfo) (blk tx : Nat)
    (ns coll : String) : infoMem (info.add blk tx ns coll) blk (tx, ns, coll) := by
  rw [MissingPvtDataInfo.add]
  cases alistLookup info blk with
  | none =>
    exact ⟨[(tx, ns, coll)], alistLookup_put_self info blk _,
      List.mem_singleton.mpr rfl⟩
  | some l =>
    exact ⟨l ++ [(tx, ns, coll)], alistLookup_put_self info blk _,
      List.mem_append_right _ (List.mem_singleton.mpr rfl)⟩

theorem infoMem_infoAdd_rev (info : MissingPvtDataInfo) (blk tx : Nat)
    (ns coll : String) (b : Nat) (x : Nat × String × String)
    (h : infoMem (info.add blk tx ns coll) b x) :
    infoMem info b x ∨ (b = blk ∧ x = (tx, ns, coll)) := by
  obtain ⟨lst, hlook, hx⟩ := h
  by_cases hb : b = blk
  · subst hb
    rw [MissingPvtDataInfo.add] at hlook
    cases hold : alistLookup info b with
    | none =>
      rw [hold, alistLookup_put_self] at hlook
      have : lst = [(tx, ns, coll)] := Option.some.inj hlook.symm
      rw [this] at hx
      exact Or.inr ⟨rfl, List.mem_singleton.mp hx⟩
    | some old =>
      rw [hold, alistLookup_put_self] at hlook
      have : lst = old ++ [(tx, ns, coll)] := Option.some.inj hlook.symm
      rw [this] at hx
      rcases List.mem_append.mp hx with hx | hx
      · exact Or.inl ⟨old, hold, hx⟩
      · exact Or.inr ⟨rfl, List.mem_singleton.mp hx⟩
  · rw [infoAdd_lookup_ne info blk tx ns coll b hb] at hlook
    exact Or.inl ⟨lst, hlook, hx⟩

theorem bmFold_keys_nodup (bm : Bitmap) (blk : Nat) (ns coll : String)
    (info : MissingPvtDataInfo) (h : (info.map Prod.fst).Nodup) :
    ((bm.foldl (fun (info : MissingPvtDataInfo) t => info.add blk t ns coll) info).map Prod.fst).Nodup := by
  induction bm generalizing info with
  | nil => exact h
  | cons t rest ih =>
    exact ih _ (infoAdd_keys_nodup info blk t ns coll h)

theorem bmFold_lookup_ne (bm : Bitmap) (blk : Nat) (ns coll : String)
    (info : MissingPvtDataInfo) (b : Nat) (hb : b ≠ blk) :
    alistLookup (bm.foldl (fun (info : MissingPvtDataInfo) t => info.add blk t ns coll) info) b =
      alistLookup info b := by
  induction bm generalizing info with
  | nil => rfl
  | cons t rest ih =>
    rw [List.foldl_cons, ih _, infoAdd_lookup_ne info blk t ns coll b hb]

theorem bmFold_filterNe (bm : Bitmap) (blk : Nat) (ns coll : String)
    (info : MissingPvtDataInfo) :
    (bm.foldl (fun (info : MissingPvtDataInfo) t => info.add blk t ns coll) info).filter
        (fun p => decide (p.1 ≠ blk)) =
      info.filter (fun p => decide (p.1 ≠ blk)) := by
  induction bm generalizing info with
  | nil => rfl
  | cons t rest ih =>
    rw [List.foldl_cons, ih _, infoAdd_filterNe info blk t ns coll]

theorem bmFold_length_le_of_lookup_some (bm : Bitmap) (blk : Nat)
    (ns coll : String) (info : MissingPvtDataInfo)
    (h : (alistLookup info blk).isSome) :
    (bm.foldl (fun (info : MissingPvtDataInfo) t => info.add blk t ns coll) info).length ≤
      info.length := by
  induction bm generalizing info with
  | nil => exact Nat.le_refl _
  | cons t rest ih =>
    rw [List.foldl_cons]
    exact Nat.le_trans (ih _ (infoAdd_lookup_self_isSome info blk t ns coll))
      (infoAdd_length_le_of_lookup_some info blk t ns coll h)

theorem bmFold_length_le (bm : Bitmap) (blk : Nat) (ns coll : String)
    (info : MissingPvtDataInfo) :
    (bm.foldl (fun (info : MissingPvtDataInfo) t => info.add blk t ns coll) info).length ≤
      info.length + 1 := by
  cases bm with
  | nil => exact Nat.le_succ _
  | cons t rest =>
    rw [List.foldl_cons]
    exact Nat.le_trans
      (bmFold_length_le_of_lookup_some rest blk ns coll _
        (infoAdd_lookup_self_isSome info blk t ns coll))
      (infoAdd_length_le info blk t ns coll)

theorem infoMem_bmFold (bm : Bitmap) (blk : Nat) (ns coll : String)
    (info : MissingPvtDataInfo) (b : Nat) (x : Nat × String × String)
    (h : infoMem info b x) :
    infoMem (bm.foldl (fun (info : MissingPvtDataInfo) t => info.add blk t ns coll) info) b x := by
  induction bm generalizing info with
  | nil => exact h
  | cons t rest ih =>
    exact ih _ (infoMem_infoAdd info blk t ns coll b x h)

theorem infoMem_bmFold_self (bm : Bitmap) (blk : Nat) (ns coll : String)
    (info : MissingPvtDataInfo) :
    ∀ t ∈ bm,
      infoMem (bm.foldl (fun (info : MissingPvtDataInfo) t => info.add blk t ns coll) info) blk
        (t, ns, coll) := by
  induction bm generalizing info with
  | nil => intro t ht; cases ht
  | cons u rest ih =>
    intro t ht
    rw [List.foldl_cons]
    rcases List.mem_cons.mp ht with ht | ht
    · subst ht
      exact infoMem_bmFold rest blk ns coll _ blk (t, ns, coll)
        (infoMem_infoAdd_self info blk t ns coll)
    · exact ih _ t ht

theorem infoMem_bmFold_rev (bm : Bitmap) (blk : Nat) (ns coll : String)
    (info : MissingPvtDataInfo) (b : Nat) (x : Nat × String × String)
    (h : infoMem (bm.foldl (fun (info : MissingPvtDataInfo) t => info.add blk t ns coll) info) b x) :
    infoMem info b x ∨
      (b = blk ∧ x.1 ∈ bm ∧ x.2.1 = ns ∧ x.2.2 = coll) := by
  induction bm generalizing info with
  | nil => exact Or.inl h
  | cons t rest ih =>
    rw [List.foldl_cons] at h
    rcases ih _ h with h | h
    · rcases infoMem_infoAdd_rev info blk t ns coll b x h with h | h
      · exact Or.inl h
      · exact Or.inr ⟨h.1, by rw [h.2]; exact List.mem_cons_self _ _,
          by rw [h.2], by rw [h.2]⟩
    · exact Or.inr ⟨h.1, List.mem_cons_of_mem _ h.2.1, h.2.2⟩

theorem scanCount_info (maxBlock : Int) (st : MissingScanState)
    (e : MissingDataKey × Bitmap) :
    (missingScanStepCount maxBlock st e).missingPvtDataInfo =
      st.missingPvtDataInfo := by
  unfold missingScanStepCount
  split
  · split <;> rfl
  · rfl

theorem scanCount_stopped (maxBlock : Int) (st : MissingScanState)
    (e : MissingDataKey × Bitmap) :
    (missingScanStepCount maxBlock st e).stopped = st.stopped := by
  unfold missingScanStepCount
  split
  · split <;> rfl
  · rfl

theorem goodScanSt_scanCount (maxBlock : Int) (st : MissingScanState)
    (e : MissingDataKey × Bitmap) (b : Nat)
    (hblk : e.1.nsCollBlk.blkNum = b) (hg : goodScanSt b st) :
    goodScanSt b (missingScanStepCount maxBlock st e) := by
  unfold missingScanStepCount
  split
  · split
    · exact ⟨hg.1, fun _ => hblk⟩
    · exact hg
  · exact hg

theorem scanStep_of_stopped (pol : BTLPolicy) (last : Nat) (maxBlock : Int)
    (st : MissingScanState) (e : MissingDataKey × Bitmap)
    (h : st.stopped = true) :
    missingScanStep pol last maxBlock st e = st := by
  unfold missingScanStep
  rw [if_pos h]

theorem scanFold_of_stopped (pol : BTLPolicy) (last : Nat) (maxBlock : Int)
    (l : List (MissingDataKey × Bitmap)) (st : MissingScanState)
    (h : st.stopped = true) :
    l.foldl (missingScanStep pol last maxBlock) st = st := by
  induction l with
  | nil => rfl
  | cons e t ih =>
    rw [List.foldl_cons, scanStep_of_stopped pol last maxBlock st e h]
    exact ih

theorem scanStep_break (pol : BTLPolicy) (last : Nat) (maxBlock : Int)
    (st : MissingScanState) (e : MissingDataKey × Bitmap)
    (h0 : st.stopped = false) (h1 : st.isMaxBlockLimitReached = true)
    (h2 : e.1.nsCollBlk.blkNum ≠ st.lastProcessedBlock) :
    missingScanStep pol last maxBlock st e = { st with stopped := true } := by
  unfold missingScanStep
  rw [if_neg (by simp [h0]), if_pos (by simp [h1, h2])]

theorem scanStep_process (pol : BTLPolicy) (last : Nat) (maxBlock : Int)
    (st : MissingScanState) (e : MissingDataKey × Bitmap)
    (h0 : st.stopped = false)
    (h1 : (st.isMaxBlockLimitReached &&
      decide (e.1.nsCollBlk.blkNum ≠ st.lastProcessedBlock)) = false)
    (h2 : isExpired e.1.nsCollBlk pol last = false) :
    missingScanStep pol last maxBlock st e =
      { missingScanStepCount maxBlock st e with
        missingPvtDataInfo := e.2.foldl
          (fun (info : MissingPvtDataInfo) t => info.add e.1.nsCollBlk.blkNum t
            e.1.nsCollBlk.ns e.1.nsCollBlk.coll)
          (missingScanStepCount maxBlock st e).missingPvtDataInfo } := by
  unfold missingScanStep
  rw [if_neg (by simp [h0]),
    if_neg (fun hc => absurd (h1.symm.trans hc) Bool.false_ne_true),
    if_neg (by simp [h2])]

theorem infoMem_scanStep (pol : BTLPolicy) (last : Nat) (maxBlock : Int)
    (st : MissingScanState) (e : MissingDataKey × Bitmap) (b : Nat)
    (x : Nat × String × String) (h : infoMem st.missingPvtDataInfo b x) :
    infoMem (missingScanStep pol last maxBlock st e).missingPvtDataInfo b x := by
  unfold missingScanStep
  by_cases h0 : st.stopped = true
  · rw [if_pos h0]; exact h
  · rw [if_neg h0]
    by_cases h1 : (st.isMaxBlockLimitReached &&
        decide (e.1.nsCollBlk.blkNum ≠ st.lastProcessedBlock)) = true
    · rw [if_pos h1]; exact h
    · rw [if_neg h1]
      by_cases h2 : isExpired e.1.nsCollBlk pol last = true
      · rw [if_pos h2]; exact h
      · rw [if_neg h2, scanCount_info maxBlock st e]
        exact infoMem_bmFold e.2 _ _ _ _ b x h

theorem infoMem_scanFold (pol : BTLPolicy) (last : Nat) (maxBlock : Int)
    (l : List (MissingDataKey × Bitmap)) (st : MissingScanState) (b : Nat)
    (x : Nat × String × String) (h : infoMem st.missingPvtDataInfo b x) :
    infoMem ((l.foldl (missingScanStep pol last maxBlock) st)).missingPvtDataInfo
      b x := by
  induction l generalizing st with
  | nil => exact h
  | cons e t ih =>
    exact ih _ (infoMem_scanStep pol last maxBlock st e b x h)

theorem scanStep_lookup_ne (pol : BTLPolicy) (last : Nat) (maxBlock : Int)
    (st : MissingScanState) (e : MissingDataKey × Bitmap) (b : Nat)
    (hb : b ≠ e.1.nsCollBlk.blkNum) :
    alistLookup (missingScanStep pol last maxBlock st e).missingPvtDataInfo b =
      alistLookup st.missingPvtDataInfo b := by
  unfold missingScanStep
  by_cases h0 : st.stopped = true
  · rw [if_pos h0]
  · rw [if_neg h0]
    by_cases h1 : (st.isMaxBlockLimitReached &&
        decide (e.1.nsCollBlk.blkNum ≠ st.lastProcessedBlock)) = true
    · rw [if_pos h1]
    · rw [if_neg h1]
      by_cases h2 : isExpired e.1.nsCollBlk pol last = true
      · rw [if_pos h2]
      · rw [if_neg h2]
        exact (bmFold_lookup_ne e.2 _ _ _ _ b hb).trans
          (by rw [scanCount_info maxBlock st e])

theorem goodScanSt_scanStep (pol : BTLPolicy) (last : Nat) (maxBlock : Int)
    (st : MissingScanState) (e : MissingDataKey × Bitmap) (b : Nat)
    (hblk : e.1.nsCollBlk.blkNum = b) (hg : goodScanSt b st) :
    goodScanSt b (missingScanStep pol last maxBlock st e) := by
  unfold missingScanStep
  rw [if_neg (by simp [hg.1])]
  have hbr : (st.isMaxBlockLimitReached &&
      decide (e.1.nsCollBlk.blkNum ≠ st.lastProcessedBlock)) = false := by
    cases hf : st.isMaxBlockLimitReached with
    | false => simp
    | true => simp [hg.2 hf, hblk]
  rw [if_neg (fun hc => absurd (hbr.symm.trans hc) Bool.false_ne_true)]
  by_cases h2 : isExpired e.1.nsCollBlk pol last = true
  · rw [if_pos h2]; exact hg
  · rw [if_neg h2]
    exact goodScanSt_scanCount maxBlock st e b hblk hg

theorem scanSegment_lookup_ne (pol : BTLPolicy) (last : Nat) (maxBlock : Int)
    (b' : Nat) :
    ∀ (seg : List (MissingDataKey × Bitmap)) (st : MissingScanState),
      (∀ p ∈ seg, p.1.nsCollBlk.blkNum = b') → ∀ b, b ≠ b' →
      alistLookup
        ((seg.foldl (missingScanStep pol last maxBlock) st)).missingPvtDataInfo
        b = alistLookup st.missingPvtDataInfo b := by
  intro seg
  induction seg with
  | nil => intro st _ b _; rfl
  | cons e rest ih =>
    intro st hblks b hb
    rw [List.foldl_cons,
      ih _ (fun q hq => hblks q (List.mem_cons_of_mem _ hq)) b hb,
      scanStep_lookup_ne pol last maxBlock st e b
        (fun h => hb (h.trans (hblks e (List.mem_cons_self _ _))))]

theorem scanSegment_comp (pol : BTLPolicy) (last : Nat) (maxBlock : Int)
    (b : Nat) :
    ∀ (seg : List (MissingDataKey × Bitmap)) (st : MissingScanState),
      (∀ p ∈ seg, p.1.nsCollBlk.blkNum = b) → goodScanSt b st →
      ∀ p ∈ seg, isExpired p.1.nsCollBlk pol last = false →
      ∀ t ∈ p.2,
        infoMem
          ((seg.foldl (missingScanStep pol last maxBlock) st)).missingPvtDataInfo
          b (t, p.1.nsCollBlk.ns, p.1.nsCollBlk.coll) := by
  intro seg
  induction seg with
  | nil => intro st _ _ p hp; cases hp
  | cons e rest ih =>
    intro st hblks hg p hp hexp t ht
    rw [List.foldl_cons]
    rcases List.mem_cons.mp hp with hpe | hpe
    · subst hpe
      have hblk : p.1.nsCollBlk.blkNum = b := hblks p (List.mem_cons_self _ _)
      have hbr : (st.isMaxBlockLimitReached &&
          decide (p.1.nsCollBlk.blkNum ≠ st.lastProcessedBlock)) = false := by
        cases hf : st.isMaxBlockLimitReached with
        | false => simp
        | true => simp [hg.2 hf, hblk]
      have hmem : infoMem
          (missingScanStep pol last maxBlock st p).missingPvtDataInfo b
          (t, p.1.nsCollBlk.ns, p.1.nsCollBlk.coll) := by
        rw [scanStep_process pol last maxBlock st p hg.1 hbr hexp, ← hblk]
        exact infoMem_bmFold_self p.2 _ _ _ _ t ht
      exact infoMem_scanFold pol last maxBlock rest _ b _ hmem
    · exact ih (missingScanStep pol last maxBlock st e)
        (fun q hq => hblks q (List.mem_cons_of_mem _ hq))
        (goodScanSt_scanStep pol last maxBlock st e b
          (hblks e (List.mem_cons_self _ _)) hg)
        p hpe hexp t ht

theorem scanStep_lenInv (pol : BTLPolicy) (last : Nat) (maxBlock : Int)
    (st : MissingScanState) (e : MissingDataKey × Bitmap)
    (h : missingScanLenInv maxBlock st) :
    missingScanLenInv maxBlock (missingScanStep pol last maxBlock st e) := by
  obtain ⟨hnd, hstopInv, hflagInv, hnof⟩ := h
  unfold missingScanStep
  by_cases h0 : st.stopped = true
  · rw [if_pos h0]
    exact ⟨hnd, hstopInv, hflagInv, hnof⟩
  · rw [if_neg h0]
    have h0f : st.stopped = false := by revert h0; cases st.stopped <;> simp
    by_cases h1 : (st.isMaxBlockLimitReached &&
        decide (e.1.nsCollBlk.blkNum ≠ st.lastProcessedBlock)) = true
    · rw [if_pos h1]
      have hflag : st.isMaxBlockLimitReached = true := by
        revert h1; cases st.isMaxBlockLimitReached <;> simp
      unfold missingScanLenInv
      dsimp only
      refine ⟨hnd, ?_, ?_, ?_⟩
      · intro _
        have hfil := hflagInv h0f hflag
        have hle := length_le_alistFilterNe_add_one st.missingPvtDataInfo
          st.lastProcessedBlock hnd
        omega
      · intro hc
        exact absurd hc (by decide)
      · intro hc
        exact absurd hc (by decide)
    · rw [if_neg h1]
      by_cases h2 : isExpired e.1.nsCollBlk pol last = true
      · rw [if_pos h2]
        exact ⟨hnd, hstopInv, hflagInv, hnof⟩
      · rw [if_neg h2]
        have hnb : st.isMaxBlockLimitReached = true →
            e.1.nsCollBlk.blkNum = st.lastProcessedBlock := by
          intro hf
          by_cases hbe : e.1.nsCollBlk.blkNum = st.lastProcessedBlock
          · exact hbe
          · exact absurd (by simp [hf, hbe]) h1
        unfold missingScanStepCount
        by_cases hlook :
            (alistLookup st.missingPvtDataInfo e.1.nsCollBlk.blkNum).isNone = true
        · rw [if_pos hlook]
          by_cases hn : st.numberOfBlockProcessed + 1 = maxBlock
          · rw [if_pos hn]
            unfold missingScanLenInv
            dsimp only
            refine ⟨bmFold_keys_nodup e.2 _ _ _ _ hnd, ?_, ?_, ?_⟩
            · intro hc
              exact absurd (h0f.symm.trans hc) Bool.false_ne_true
            · intro _ _
              rw [bmFold_filterNe]
              by_cases hf : st.isMaxBlockLimitReached = true
              · have hlp := hnb hf
                have hfil := hflagInv h0f hf
                rw [hlp]
                exact hfil
              · have hff : st.isMaxBlockLimitReached = false := by
                  revert hf; cases st.isMaxBlockLimitReached <;> simp
                have hno := hnof h0f hff
                have hfl := List.length_filter_le
                  (fun p => decide (p.1 ≠ e.1.nsCollBlk.blkNum))
                  st.missingPvtDataInfo
                omega
            · intro _ hcf
              exact absurd hcf (by decide)
          · rw [if_neg hn]
            unfold missingScanLenInv
            dsimp only
            refine ⟨bmFold_keys_nodup e.2 _ _ _ _ hnd, ?_, ?_, ?_⟩
            · intro hc
              exact absurd (h0f.symm.trans hc) Bool.false_ne_true
            · intro _ hf
              have hlp := hnb hf
              rw [← hlp, bmFold_filterNe, hlp]
              exact hflagInv h0f hf
            · intro _ hff
              have hno := hnof h0f hff
              have hlen := bmFold_length_le e.2 e.1.nsCollBlk.blkNum
                e.1.nsCollBlk.ns e.1.nsCollBlk.coll st.missingPvtDataInfo
              exact ⟨by omega, by omega⟩
        · rw [if_neg hlook]
          have hsome :
              (alistLookup st.missingPvtDataInfo e.1.nsCollBlk.blkNum).isSome := by
            revert hlook
            cases alistLookup st.missingPvtDataInfo e.1.nsCollBlk.blkNum <;> simp
          unfold missingScanLenInv
          dsimp only
          refine ⟨bmFold_keys_nodup e.2 _ _ _ _ hnd, ?_, ?_, ?_⟩
          · intro hc
            exact absurd (h0f.symm.trans hc) Bool.false_ne_true
          · intro _ hf
            have hlp := hnb hf
            rw [← hlp, bmFold_filterNe, hlp]
            exact hflagInv h0f hf
          · intro _ hff
            have hno := hnof h0f hff
            have hlen := bmFold_length_le_of_lookup_some e.2 e.1.nsCollBlk.blkNum
              e.1.nsCollBlk.ns e.1.nsCollBlk.coll st.missingPvtDataInfo hsome
            exact ⟨by omega, hno.2⟩

theorem scanFold_lenInv (pol : BTLPolicy) (last : Nat) (maxBlock : Int)
    (l : List (MissingDataKey × Bitmap)) (st : MissingScanState)
    (h : missingScanLenInv maxBlock st) :
    missingScanLenInv maxBlock (l.foldl (missingScanStep pol last maxBlock) st) := by
  induction l generalizing st with
  | nil => exact h
  | cons e t ih =>
    exact ih _ (scanStep_lenInv pol last maxBlock st e h)

theorem missingScanLenInv_init (maxBlock : Int) (h : 1 ≤ maxBlock) :
    missingScanLenInv maxBlock ⟨[], 0, 0, false, false⟩ := by
  unfold missingScanLenInv
  dsimp only
  refine ⟨List.nodup_nil, ?_, ?_, ?_⟩
  · intro hc
    exact absurd hc (by decide)
  · intro _ hc
    exact absurd hc (by decide)
  · intro _ _
    exact ⟨by decide, by omega⟩

theorem lenInv_length_le (maxBlock : Int) (st : MissingScanState)
    (h : missingScanLenInv maxBlock st) :
    (st.missingPvtDataInfo.length : Int) ≤ maxBlock := by
  obtain ⟨hnd, hstopInv, hflagInv, hnof⟩ := h
  by_cases h0 : st.stopped = true
  · exact hstopInv h0
  · have h0f : st.stopped = false := by revert h0; cases st.stopped <;> simp
    by_cases hf : st.isMaxBlockLimitReached = true
    · have hfil := hflagInv h0f hf
      have hle := length_le_alistFilterNe_add_one st.missingPvtDataInfo
        st.lastProcessedBlock hnd
      omega
    · have hff : st.isMaxBlockLimitReached = false := by
        revert hf; cases st.isMaxBlockLimitReached <;> simp
      have hno := hnof h0f hff
      omega

theorem eligible_blkNum (db : StoreDB) (b : Nat) :
    ∀ p ∈ eligibleMissingEntriesForBlk db b, p.1.nsCollBlk.blkNum = b := by
  intro p hp
  have h2 := (List.mem_filter.mp hp).2
  simp at h2
  exact h2.2

theorem scanStep_prov (db : StoreDB) (pol : BTLPolicy) (last : Nat)
    (maxBlock : Int) (st : MissingScanState) (e : MissingDataKey × Bitmap)
    (he : e ∈ eligibleMissingEntriesForBlk db e.1.nsCollBlk.blkNum)
    (hst : ∀ b x, infoMem st.missingPvtDataInfo b x → missingProv db pol last b x) :
    ∀ b x,
      infoMem (missingScanStep pol last maxBlock st e).missingPvtDataInfo b x →
      missingProv db pol last b x := by
  intro b x hx
  unfold missingScanStep at hx
  by_cases h0 : st.stopped = true
  · rw [if_pos h0] at hx
    exact hst b x hx
  · rw [if_neg h0] at hx
    by_cases h1 : (st.isMaxBlockLimitReached &&
        decide (e.1.nsCollBlk.blkNum ≠ st.lastProcessedBlock)) = true
    · rw [if_pos h1] at hx
      exact hst b x hx
    · rw [if_neg h1] at hx
      by_cases h2 : isExpired e.1.nsCollBlk pol last = true
      · rw [if_pos h2] at hx
        exact hst b x hx
      · rw [if_neg h2, scanCount_info maxBlock st e] at hx
        rcases infoMem_bmFold_rev e.2 _ _ _ _ b x hx with hmem | hnew
        · exact hst b x hmem
        · refine ⟨e, ?_, ?_, hnew.2.2.1, hnew.2.2.2, hnew.2.1⟩
          · rw [hnew.1]
            exact he
          · revert h2
            cases isExpired e.1.nsCollBlk pol last <;> simp

theorem scanFold_prov (db : StoreDB) (pol : BTLPolicy) (last : Nat)
    (maxBlock : Int) (l : List (MissingDataKey × Bitmap))
    (hl : ∀ e ∈ l, e ∈ eligibleMissingEntriesForBlk db e.1.nsCollBlk.blkNum)
    (st : MissingScanState)
    (hst : ∀ b x, infoMem st.missingPvtDataInfo b x → missingProv db pol last b x) :
    ∀ b x,
      infoMem ((l.foldl (missingScanStep pol last maxBlock) st)).missingPvtDataInfo
        b x →
      missingProv db pol last b x := by
  induction l generalizing st with
  | nil => exact hst
  | cons e t ih =>
    rw [List.foldl_cons]
    exact ih (fun q hq => hl q (List.mem_cons_of_mem _ hq)) _
      (scanStep_prov db pol last maxBlock st e (hl e (List.mem_cons_self _ _)) hst)

theorem mem_eligibleScan (db : StoreDB) (last : Nat)
    (e : MissingDataKey × Bitmap) (h : e ∈ eligibleMissingDataScan db last) :
    e ∈ eligibleMissingEntriesForBlk db e.1.nsCollBlk.blkNum := by
  rw [eligibleMissingDataScan] at h
  rcases List.mem_flatMap.mp h with ⟨b, _, he⟩
  have hblk : e.1.nsCollBlk.blkNum = b := eligible_blkNum db b e he
  rw [hblk]
  exact he

theorem foldl_flatMap {α β γ : Type} (l : List β) (f : β → List γ)
    (g : α → γ → α) (i : α) :
    (l.flatMap f).foldl g i = l.foldl (fun a b => (f b).foldl g a) i := by
  induction l generalizing i with
  | nil => rfl
  | cons b t ih =>
    rw [List.flatMap_cons, List.foldl_append, List.foldl_cons]
    exact ih _

theorem scanSegment_dich (db : StoreDB) (pol : BTLPolicy) (last : Nat)
    (maxBlock : Int) (b : Nat) (st : MissingScanState)
    (hnone : alistLookup st.missingPvtDataInfo b = none)
    (hsome : (alistLookup
      ((eligibleMissingEntriesForBlk db b).foldl
        (missingScanStep pol last maxBlock) st).missingPvtDataInfo b).isSome) :
    missingComp db pol last b
      ((eligibleMissingEntriesForBlk db b).foldl
        (missingScanStep pol last maxBlock) st).missingPvtDataInfo := by
  by_cases h0 : st.stopped = true
  · rw [scanFold_of_stopped pol last maxBlock _ st h0, hnone] at hsome
    simp at hsome
  · have h0f : st.stopped = false := by revert h0; cases st.stopped <;> simp
    by_cases hflag : st.isMaxBlockLimitReached = true
    · by_cases hlp : st.lastProcessedBlock = b
      · intro p hp hexp t ht
        exact scanSegment_comp pol last maxBlock b _ st (eligible_blkNum db b)
          ⟨h0f, fun _ => hlp⟩ p hp hexp t ht
      · cases hseg : eligibleMissingEntriesForBlk db b with
        | nil =>
          rw [hseg, List.foldl_nil] at hsome
          rw [hnone] at hsome
          simp at hsome
        | cons e rest =>
          have hbe : e.1.nsCollBlk.blkNum = b :=
            eligible_blkNum db b e (by rw [hseg]; exact List.mem_cons_self _ _)
          have hstep := scanStep_break pol last maxBlock st e h0f hflag
            (by rw [hbe]; exact fun hh => hlp hh.symm)
          rw [hseg, List.foldl_cons, hstep,
            scanFold_of_stopped pol last maxBlock rest _ rfl] at hsome
          dsimp only at hsome
          rw [hnone] at hsome
          simp at hsome
    · intro p hp hexp t ht
      exact scanSegment_comp pol last maxBlock b _ st (eligible_blkNum db b)
        ⟨h0f, fun hf => absurd hf hflag⟩ p hp hexp t ht

theorem infoMem_scanOuterFold (db : StoreDB) (pol : BTLPolicy) (last : Nat)
    (maxBlock : Int) (bs : List Nat) (st : MissingScanState) (b : Nat)
    (x : Nat × String × String) (h : infoMem st.missingPvtDataInfo b x) :
    infoMem ((bs.foldl
      (fun acc b' => (eligibleMissingEntriesForBlk db b').foldl
        (missingScanStep pol last maxBlock) acc) st)).missingPvtDataInfo b x := by
  induction bs generalizing st with
  | nil => exact h
  | cons b0 t ih =>
    exact ih _ (infoMem_scanFold pol last maxBlock _ st b x h)

theorem scanOuter_key_src (db : StoreDB) (pol : BTLPolicy) (last : Nat)
    (maxBlock : Int) :
    ∀ (bs : List Nat) (st : MissingScanState), bs.Nodup →
      (∀ b', (alistLookup st.missingPvtDataInfo b').isSome → b' ∉ bs) →
      ∀ b,
      (alistLookup ((bs.foldl
        (fun acc b' => (eligibleMissingEntriesForBlk db b').foldl
          (missingScanStep pol last maxBlock) acc) st)).missingPvtDataInfo
        b).isSome →
      (alistLookup st.missingPvtDataInfo b).isSome ∨
        (b ∈ bs ∧ missingComp db pol last b
          ((bs.foldl
            (fun acc b' => (eligibleMissingEntriesForBlk db b').foldl
              (missingScanStep pol last maxBlock) acc) st)).missingPvtDataInfo) := by
  intro bs
  induction bs with
  | nil =>
    intro st _ _ b h
    exact Or.inl h
  | cons b0 bs' ih =>
    intro st hnd hdisj b hb
    rw [List.foldl_cons] at hb ⊢
    have hnd' : bs'.Nodup := (List.nodup_cons.mp hnd).2
    have hb0 : b0 ∉ bs' := (List.nodup_cons.mp hnd).1
    have hdisj' : ∀ b',
        (alistLookup ((eligibleMissingEntriesForBlk db b0).foldl
          (missingScanStep pol last maxBlock) st).missingPvtDataInfo b').isSome →
        b' ∉ bs' := by
      intro b' hb'
      by_cases hbb : b' = b0
      · rw [hbb]
        exact hb0
      · rw [scanSegment_lookup_ne pol last maxBlock b0 _ st
          (eligible_blkNum db b0) b' hbb] at hb'
        exact fun hmem => hdisj b' hb' (List.mem_cons_of_mem _ hmem)
    rcases ih _ hnd' hdisj' b hb with h | h
    · by_cases hbb : b = b0
      · subst hbb
        by_cases hstx : (alistLookup st.missingPvtDataInfo b).isSome
        · exact absurd (List.mem_cons_self b bs') (hdisj b hstx)
        · have hnone : alistLookup st.missingPvtDataInfo b = none := by
            revert hstx
            cases alistLookup st.missingPvtDataInfo b <;> simp
          have hcomp1 := scanSegment_dich db pol last maxBlock b st hnone h
          refine Or.inr ⟨List.mem_cons_self _ _, ?_⟩
          intro p hp hexp t ht
          exact infoMem_scanOuterFold db pol last maxBlock bs' _ b _
            (hcomp1 p hp hexp t ht)
      · rw [scanSegment_lookup_ne pol last maxBlock b0 _ st
          (eligible_blkNum db b0) b hbb] at h
        exact Or.inl h
    · exact Or.inr ⟨List.mem_cons_of_mem _ h.1, h.2⟩

/-- Claim C5 — `GetMissingPvtDataInfoForMostRecentBlocks(maxBlock)` returns
an empty result for every `maxBlock < 1`; otherwise it returns missing-data
info whose block numbers are distinct and number at most `maxBlock`, a block
that appears in the result is complete — every set bit of every non-expired
eligible missing-data entry of that block is included, so a block's entries
are never split across the `maxBlock` boundary — and every returned item
stems from a non-expired eligible missing-data entry of its block, so
entries already expired at the current last committed height are skipped. -/
theorem c5_missing_data_scan (s : Store) (maxBlock : Int) :
    (maxBlock < 1 →
      s.GetMissingPvtDataInfoForMostRecentBlocks maxBlock = .ok []) ∧
    (1 ≤ maxBlock →
      ∃ info, s.GetMissingPvtDataInfoForMostRecentBlocks maxBlock = .ok info ∧
        (info.map Prod.fst).Nodup ∧
        (info.length : Int) ≤ maxBlock ∧
        (∀ b, (alistLookup info b).isSome →
          missingComp s.db s.btlPolicy s.lastCommittedBlock b info) ∧
        (∀ b x, infoMem info b x →
          missingProv s.db s.btlPolicy s.lastCommittedBlock b x)) := by
  constructor
  · intro h
    unfold Store.GetMissingPvtDataInfoForMostRecentBlocks
    rw [if_pos h]
  · intro h
    have hnlt : ¬ maxBlock < 1 := by omega
    unfold Store.GetMissingPvtDataInfoForMostRecentBlocks
    rw [if_neg hnlt]
    dsimp only
    have hinv := scanFold_lenInv s.btlPolicy s.lastCommittedBlock maxBlock
      (eligibleMissingDataScan s.db s.lastCommittedBlock)
      ⟨[], 0, 0, false, false⟩ (missingScanLenInv_init maxBlock h)
    refine ⟨_, rfl, hinv.1, lenInv_length_le maxBlock _ hinv, ?_, ?_⟩
    · intro b hb
      have hfold : (eligibleMissingDataScan s.db s.lastCommittedBlock).foldl
          (missingScanStep s.btlPolicy s.lastCommittedBlock maxBlock)
          ⟨[], 0, 0, false, false⟩ =
          ((List.range (s.lastCommittedBlock + 1)).reverse).foldl
            (fun acc b' => (eligibleMissingEntriesForBlk s.db b').foldl
              (missingScanStep s.btlPolicy s.lastCommittedBlock maxBlock) acc)
            ⟨[], 0, 0, false, false⟩ := by
        rw [eligibleMissingDataScan, foldl_flatMap]
      rw [hfold] at hb ⊢
      have houter := scanOuter_key_src s.db s.btlPolicy s.lastCommittedBlock
        maxBlock ((List.range (s.lastCommittedBlock + 1)).reverse)
        ⟨[], 0, 0, false, false⟩
        (by rw [List.nodup_reverse]; exact List.nodup_range _)
        (by intro b' hb'; simp [alistLookup] at hb') b hb
      rcases houter with h' | h'
      · simp [alistLookup] at h'
      · exact h'.2
    · intro b x hx
      refine scanFold_prov s.db s.btlPolicy s.lastCommittedBlock maxBlock _
        (fun e he => mem_eligibleScan s.db s.lastCommittedBlock e he)
        ⟨[], 0, 0, false, false⟩ ?_ b x hx
      intro b' x' hx'
      obtain ⟨l, hl, _⟩ := hx'
      simp [alistLookup] at hl

/-- Witness for C5: at `maxBlock = 0 < 1` the scan on the populated witness
store returns the empty info. -/
theorem c5_missing_data_scan_witness :
    Store.GetMissingPvtDataInfoForMostRecentBlocks storeW 0 = .ok [] :=
  (c5_missing_data_scan storeW 0).1 (by decide)

end PvtStore
